import Mathlib

/-!
The script writer of innoextract (`src/setup/script.cpp`).

A shallow embedding of the functions of `script.cpp` and the properties of the
text they write.

Conventions of the embedding.

* A C++ `char` is a `Char` and a `std::string` is a `List Char`; a byte string
  is a list of characters below 256, and `(unsigned char)c` is the character
  itself.
* A `std::ostream` is the record `ostream`: the characters written so far and
  the part of the format state `script.cpp` touches (number base, fill
  character, field width).  All other format flags are the ones of a newly
  constructed stream (right adjustment, no `showbase`, no `uppercase`).
* `os << x` is a function from the stream before to the stream after.
-/

namespace setup

/-! ## Output streams -/

/-- The `std::ios_base::basefield` part of the format flags. -/
inductive fmtbase where
  | dec
  | oct
  | hex
  deriving DecidableEq, Repr

/-- Radix of a number base. -/
def fmtbase.radix : fmtbase → Nat
  | .dec => 10
  | .oct => 8
  | .hex => 16

/-- A `std::ostream`: what was written, and the format state. -/
structure ostream where
  /-- the characters written so far -/
  buf : List Char
  /-- `flags() & basefield` -/
  basefield : fmtbase
  /-- `fill()` -/
  fill : Char
  /-- `width()` -/
  width : Nat
  deriving DecidableEq, Repr

/-- A newly constructed stream (`std::stringstream ss;`, a newly opened file). -/
def ostream.fresh : ostream := ⟨[], fmtbase.dec, ' ', 0⟩

/-- Padding of a formatted insertion: fill characters on the left, up to the
field width. -/
def ostream.pad (os : ostream) (s : List Char) : List Char :=
  List.replicate (os.width - s.length) os.fill ++ s

/-- A formatted insertion of the text `s`: it is padded to the field width and
the width is reset, as `os << "..."` and `os << std::string` do. -/
def ostream.write (os : ostream) (s : List Char) : ostream :=
  { os with buf := os.buf ++ os.pad s, width := 0 }

/-- Formatted insertion of one character, `os << c`. -/
def ostream.put_char (os : ostream) (c : Char) : ostream :=
  os.write [c]

/-- The digits `num_put` gives an `int` in a number base: signed in decimal, the
32-bit two's complement value in octal and hexadecimal. -/
def int_digits (b : fmtbase) (v : Int) : List Char :=
  match b with
  | .dec => if v < 0 then '-' :: Nat.toDigits 10 v.natAbs else Nat.toDigits 10 v.toNat
  | .oct => Nat.toDigits 8 (v % 2 ^ 32).toNat
  | .hex => Nat.toDigits 16 (v % 2 ^ 32).toNat

/-- Formatted insertion of an `int`, `os << v`. -/
def ostream.put_int (os : ostream) (v : Int) : ostream :=
  os.write (int_digits os.basefield v)

/-- Formatted insertion of an unsigned integer (`unsigned`, `size_t`). -/
def ostream.put_unsigned (os : ostream) (v : Nat) : ostream :=
  os.write (Nat.toDigits os.basefield.radix v)

/-- The manipulator `std::hex`. -/
def ostream.hex (os : ostream) : ostream :=
  { os with basefield := fmtbase.hex }

/-- The manipulator `std::setfill(c)`. -/
def ostream.setfill (os : ostream) (c : Char) : ostream :=
  { os with fill := c }

/-- The manipulator `std::setw(n)`. -/
def ostream.setw (os : ostream) (n : Nat) : ostream :=
  { os with width := n }

/-- The call `os.setf(old, std::ios_base::basefield)`, `old` being the base
field of the flags saved by `os.flags()`. -/
def ostream.setf_basefield (os : ostream) (old : fmtbase) : ostream :=
  { os with basefield := old }

/-- The manipulator `std::endl`: an unformatted newline (and a flush). -/
def ostream.endl (os : ostream) : ostream :=
  { os with buf := os.buf ++ ['\n'] }

/-! ## Scalar emitters -/

/-- The `keyvalue` record. -/
structure keyvalue where
  key : List Char
  value : List Char

/-- The insertion `operator<<(std::ostream &, const keyvalue &)`. -/
def put_keyvalue (os : ostream) (kv : keyvalue) : ostream :=
  if ¬ kv.value.isEmpty then
    (((os.write kv.key).write "=".toList).write kv.value).write "\n".toList
  else
    os

/-- The record `detail::property<T>`. -/
structure property (T : Type) where
  key : List Char
  value : T
  first : Bool

/-- The generic insertion `detail::operator<<(std::ostream &, const property<T> &)`;
`put` is the insertion of a `T`. -/
def put_property {T : Type} (put : ostream → T → ostream) (os : ostream)
    (prop : property T) : ostream :=
  let os := if ¬ prop.first then os.write "; ".toList else os
  put ((os.write prop.key).write ": ".toList) prop.value

/-- The specialisation of the insertion for `property<std::string>`. -/
def put_property_string (os : ostream) (prop : property (List Char)) : ostream :=
  if ¬ prop.value.isEmpty then
    let os := if ¬ prop.first then os.write "; ".toList else os
    ((os.write prop.key).write ": ".toList).write prop.value
  else
    os

/-- One turn of the loop of the insertion of a `quoted_nocolor`: the character
`i` of the string. -/
def put_quoted_char (os : ostream) (i : Char) : ostream :=
  let c := i
  if c < ' ' ∧ c ≠ '\t' ∧ c ≠ '\r' ∧ c ≠ '\n' then
    let old := os.basefield
    let os := (((((os.put_char '<').hex).setfill '0').setw 2).put_int (Int.ofNat c.toNat)).put_char '>'
    os.setf_basefield old
  else
    os.put_char i

/-- The insertion `operator<<(std::ostream &, const quoted_nocolor &)`. -/
def put_quoted_nocolor (os : ostream) (str : List Char) : ostream :=
  (str.foldl put_quoted_char (os.put_char '"')).put_char '"'

/-- The function template `stringify`: the text `ss << value` leaves in a new
string stream. -/
def stringify {T : Type} (put : ostream → T → ostream) (value : T) : List Char :=
  (put ostream.fresh value).buf

/-! ## The model

The headers that declare the model (`setup/version.hpp`, `setup/item.hpp`, `setup/windows.hpp`,
`setup/registry.hpp`, `setup/info.hpp`)
are not among the sources.  The records below have the members `script.cpp`
reads, with the types its calls need; an enumerated value, a Windows version
and a flag set are kept as a code, and their stream insertions are taken as
parameters (`externals`). -/

/-- Modelled from the spec: `setup/version.hpp` is not among the sources.  The
banner metadata: the three parts `a()`, `b()`, `c()` of the version number
(unsigned) and the flag of the wide-character variant. -/
structure version where
  a : Nat
  b : Nat
  c : Nat
  unicode : Bool
  deriving DecidableEq, Repr

/-- Modelled from the spec: `setup/windows.hpp` is not among the sources.  A
version boundary: `script.cpp` writes its member `win_version` and compares
boundaries with `!=`, which is structural; `rest` stands for the members it
does not read. -/
structure windows_version where
  win_version : Nat
  rest : Nat
  deriving DecidableEq, Repr

/-- Modelled from the spec: `setup/windows.hpp` is not among the sources.  A
version-applicability range, the pair of its boundaries (`end_` is the member
`end`). -/
structure windows_version_range where
  begin : windows_version
  end_ : windows_version
  deriving DecidableEq, Repr

/-- Modelled from the spec: the declaration of `setup::header` is not among the
sources.  The
global settings: the string members `write_setup` names (`keyvalue` takes a
`const std::string &`), the three members it leaves out, and the default
version range. -/
structure header where
  app_name : List Char
  app_comments : List Char
  app_contact : List Char
  app_copyright : List Char
  app_id : List Char
  app_modify_path : List Char
  app_mutex : List Char
  app_publisher : List Char
  app_publisher_url : List Char
  app_readme_file : List Char
  app_support_phone : List Char
  app_support_url : List Char
  app_updates_url : List Char
  app_version : List Char
  app_versioned_name : List Char
  base_filename : List Char
  close_applications_filter : List Char
  create_uninstall_registry_key : List Char
  default_dir_name : List Char
  default_group_name : List Char
  default_serial : List Char
  default_user_name : List Char
  default_user_organisation : List Char
  info_after : List Char
  info_before : List Char
  setup_mutex : List Char
  uninstall_files_dir : List Char
  uninstall_icon : List Char
  uninstall_icon_name : List Char
  uninstall_name : List Char
  uninstallable : List Char
  compiled_code : List Char
  license_text : List Char
  uninstaller_signature : List Char
  winver : windows_version_range
  deriving DecidableEq, Repr

/-- Modelled from the spec: `setup/item.hpp` is not among the sources.  The
common shape of an entry: the three selector lists, each a comma-joined string,
and the version range. -/
structure item where
  components : List Char
  tasks : List Char
  languages : List Char
  winver : windows_version_range
  deriving DecidableEq, Repr

/-- Modelled from the spec: `setup/registry.hpp` is not among the sources.  A
registry entry: `hive` and `type` are enumerated values, `permission` an `int`
(-1: not set), `options` the flag set (0: no flag). -/
structure registry_entry extends item where
  hive : Nat
  key : List Char
  type : Nat
  name : List Char
  value : List Char
  permission : Int
  options : Nat
  deriving DecidableEq, Repr

/-- Modelled from the spec: `setup/info.hpp` is not among the sources.  The
whole model. -/
structure info where
  version : version
  header : header
  registry_entries : List registry_entry
  deriving DecidableEq, Repr

/-- What `script.cpp` takes from the headers that are not among the sources:
the enumerator `registry_entry::None`, and the text written by the stream
insertion of a hive, of a value type, of a `windows_version::data` and of a
flag set.  Each of these insertions is taken to write its text as one formatted
insertion and to leave the format state as it is. -/
structure externals where
  None : Nat
  hive_name : Nat → List Char
  value_type : Nat → List Char
  windows_version_data : Nat → List Char
  flags : Nat → List Char

/-- The insertion of a `registry_entry::hive_name` (declared outside
`script.cpp`): it writes the name `X.hive_name` gives the hive. -/
def put_hive_name (X : externals) (os : ostream) (hive : Nat) : ostream :=
  os.write (X.hive_name hive)

/-- The insertion of a `registry_entry::value_type` (declared outside
`script.cpp`): it writes the name `X.value_type` gives the type. -/
def put_value_type (X : externals) (os : ostream) (type : Nat) : ostream :=
  os.write (X.value_type type)

/-- The insertion of a `windows_version::data` (declared outside `script.cpp`):
it writes the text `X.windows_version_data` gives the version. -/
def put_windows_version_data (X : externals) (os : ostream) (data : Nat) : ostream :=
  os.write (X.windows_version_data data)

/-- The insertion of a `registry_entry::flags` (declared outside `script.cpp`):
it writes the text `X.flags` gives the flag set. -/
def put_flags (X : externals) (os : ostream) (options : Nat) : ostream :=
  os.write (X.flags options)

/-! ## Section writers -/

/-- The function `write_version`: the banner line. -/
def write_version (ofs : ostream) (version : version) : ostream :=
  let ofs := ofs.write ";InnoSetupVersion=".toList
  let ofs := ((((ofs.put_unsigned version.a).write ".".toList).put_unsigned version.b).write
    ".".toList).put_unsigned version.c
  let ofs := if version.unicode then ofs.write " (Unicode)".toList else ofs
  ofs.write "\n".toList

/-- The function `write_setup`: the `[Setup]` section. -/
def write_setup (ofs : ostream) (header : header) : ostream :=
  let ofs := ofs.write "\n[Setup]\n".toList
  let ofs := put_keyvalue ofs ⟨"AppName".toList, header.app_name⟩
  let ofs := put_keyvalue ofs ⟨"AppComments".toList, header.app_comments⟩
  let ofs := put_keyvalue ofs ⟨"AppContact".toList, header.app_contact⟩
  let ofs := put_keyvalue ofs ⟨"AppCopyright".toList, header.app_copyright⟩
  let ofs := put_keyvalue ofs ⟨"AppId".toList, header.app_id⟩
  let ofs := put_keyvalue ofs ⟨"AppModifyPath".toList, header.app_modify_path⟩
  let ofs := put_keyvalue ofs ⟨"AppMutex".toList, header.app_mutex⟩
  let ofs := put_keyvalue ofs ⟨"AppName".toList, header.app_name⟩
  let ofs := put_keyvalue ofs ⟨"AppPublisher".toList, header.app_publisher⟩
  let ofs := put_keyvalue ofs ⟨"AppPublisherUrl".toList, header.app_publisher_url⟩
  let ofs := put_keyvalue ofs ⟨"AppReadmeFile".toList, header.app_readme_file⟩
  let ofs := put_keyvalue ofs ⟨"AppSupportPhone".toList, header.app_support_phone⟩
  let ofs := put_keyvalue ofs ⟨"AppSupportUrl".toList, header.app_support_url⟩
  let ofs := put_keyvalue ofs ⟨"AppUpdatesUrl".toList, header.app_updates_url⟩
  let ofs := put_keyvalue ofs ⟨"AppVersion".toList, header.app_version⟩
  let ofs := put_keyvalue ofs ⟨"AppVerName".toList, header.app_versioned_name⟩
  let ofs := put_keyvalue ofs ⟨"OutputBaseFilename".toList, header.base_filename⟩
  let ofs := put_keyvalue ofs ⟨"CloseApplicationsFilter".toList, header.close_applications_filter⟩
  let ofs := put_keyvalue ofs ⟨"CreateUninstallRegKey".toList, header.create_uninstall_registry_key⟩
  let ofs := put_keyvalue ofs ⟨"DefaultDirName".toList, header.default_dir_name⟩
  let ofs := put_keyvalue ofs ⟨"DefaultGroupName".toList, header.default_group_name⟩
  let ofs := put_keyvalue ofs ⟨"DefaultUserInfoSerial".toList, header.default_serial⟩
  let ofs := put_keyvalue ofs ⟨"DefaultUserInfoName".toList, header.default_user_name⟩
  let ofs := put_keyvalue ofs ⟨"DefaultUserInfoOrg".toList, header.default_user_organisation⟩
  let ofs := put_keyvalue ofs ⟨"InfoAfterFile".toList, header.info_after⟩
  let ofs := put_keyvalue ofs ⟨"InfoBeforeFile".toList, header.info_before⟩
  let ofs := put_keyvalue ofs ⟨"SetupMutex".toList, header.setup_mutex⟩
  let ofs := put_keyvalue ofs ⟨"UninstallFilesDir".toList, header.uninstall_files_dir⟩
  let ofs := put_keyvalue ofs ⟨"UninstallIconFile".toList, header.uninstall_icon⟩
  let ofs := put_keyvalue ofs ⟨"UninstallIconName".toList, header.uninstall_icon_name⟩
  let ofs := put_keyvalue ofs ⟨"UninstallDisplayName".toList, header.uninstall_name⟩
  let ofs := put_keyvalue ofs ⟨"Uninstallable".toList, header.uninstallable⟩
  ofs

/-- The function `write_item`: the clauses common to all entries. -/
def write_item (X : externals) (ofs : ostream) (item : item) (header : header) : ostream :=
  let default_winver := header.winver
  let ofs := put_property_string ofs ⟨"Languages".toList, item.languages, false⟩
  let ofs :=
    if item.winver.begin ≠ default_winver.begin then
      put_property (put_windows_version_data X) ofs
        ⟨"MinVersion".toList, item.winver.begin.win_version, false⟩
    else ofs
  let ofs :=
    if item.winver.end_ ≠ default_winver.end_ then
      put_property (put_windows_version_data X) ofs
        ⟨"OnlyBelowVersion".toList, item.winver.end_.win_version, false⟩
    else ofs
  let ofs := put_property_string ofs ⟨"Components".toList, item.components, false⟩
  put_property_string ofs ⟨"Tasks".toList, item.tasks, false⟩

/-- The body of the `BOOST_FOREACH` loop of `write_registry`: the line of one
entry. -/
def write_registry_entry (X : externals) (ofs : ostream) (entry : registry_entry)
    (header : header) : ostream :=
  let ofs := put_property_string ofs
    ⟨"Root".toList, stringify (put_hive_name X) entry.hive, true⟩
  let ofs := put_property put_quoted_nocolor ofs ⟨"Subkey".toList, entry.key, false⟩
  let ofs :=
    if entry.type ≠ X.None then
      put_property_string ofs
        ⟨"ValueType".toList, stringify (put_value_type X) entry.type, false⟩
    else ofs
  let ofs :=
    if ¬ entry.name.isEmpty then
      put_property put_quoted_nocolor ofs ⟨"ValueName".toList, entry.name, false⟩
    else ofs
  let ofs :=
    if ¬ entry.value.isEmpty then
      put_property put_quoted_nocolor ofs ⟨"ValueData".toList, entry.value, false⟩
    else ofs
  let ofs :=
    if entry.permission ≠ -1 then
      put_property ostream.put_int ofs ⟨"Permissions".toList, entry.permission, false⟩
    else ofs
  let ofs := write_item X ofs entry.toitem header
  let ofs :=
    if entry.options ≠ 0 then
      put_property (put_flags X) ofs ⟨"Flags".toList, entry.options, false⟩
    else ofs
  ofs.write "\n".toList

/-- The two sinks `write_registry` writes to: the script file and the standard
output `std::cout`. -/
structure sinks where
  ofs : ostream
  cout : ostream
  deriving DecidableEq, Repr

/-- The function `write_registry`: the `[Registry]` section, written to `ofs`,
and the number of entries, written to `std::cout`. -/
def write_registry (X : externals) (ofs cout : ostream) (info : info) : sinks :=
  let ofs := ofs.write "\n[Registry]\n".toList
  let cout := (cout.put_unsigned info.registry_entries.length).endl
  let ofs := info.registry_entries.foldl
    (fun ofs entry => write_registry_entry X ofs entry info.header) ofs
  ⟨ofs, cout⟩

/-- The function `write_script`. -/
def write_script (X : externals) (ofs cout : ostream) (info : info) : sinks :=
  let ofs := write_version ofs info.version
  let ofs := write_setup ofs info.header
  write_registry X ofs cout info

/-! ## The text of an insertion -/

/-- The relation `emits os t os1`: started from `os` with no pending field width, the
insertions leading to `os1` append exactly the text `t`, keep the number base and
leave no pending field width. -/
def emits (os : ostream) (t : List Char) (os1 : ostream) : Prop :=
  os.width = 0 → os1.buf = os.buf ++ t ∧ os1.basefield = os.basefield ∧ os1.width = 0

/-- The text of a `keyvalue`: nothing for an empty value, else the line
`key=value`. -/
def keyvalue_text (key value : List Char) : List Char :=
  if value = [] then [] else key ++ "=".toList ++ value ++ "\n".toList

/-- A clause `Key: value` of a property list. -/
def clause (key value : List Char) : List Char :=
  key ++ ": ".toList ++ value

/-- A clause as it is written: after the separator `; ` unless it is marked
first. -/
def property_text (key value : List Char) (first : Bool) : List Char :=
  (if first then [] else "; ".toList) ++ clause key value

/-- The escaped form of one byte, in the words of the specification: a byte
below 0x20 other than tab, line feed and carriage return becomes `<hh>`, its
value in two hexadecimal digits; any other byte stays. -/
def escaped (b : Char) : List Char :=
  if b.toNat < 0x20 ∧ b.toNat ≠ 0x09 ∧ b.toNat ≠ 0x0A ∧ b.toNat ≠ 0x0D then
    ['<', Nat.digitChar (b.toNat / 16), Nat.digitChar (b.toNat % 16), '>']
  else
    [b]

/-- The quoted form of a text, in the words of the specification. -/
def quoted (text : List Char) : List Char :=
  '"' :: text.flatMap escaped ++ ['"']

/-! ## The clauses of an entry -/

/-- The clauses `write_item` writes, each a key and the text of its value, in
the order of its statements. -/
def item_clauses (X : externals) (item : item) (header : header) :
    List (List Char × List Char) :=
  (if item.languages = [] then [] else [("Languages".toList, item.languages)])
  ++ (if item.winver.begin ≠ header.winver.begin then
      [("MinVersion".toList, X.windows_version_data item.winver.begin.win_version)] else [])
  ++ (if item.winver.end_ ≠ header.winver.end_ then
      [("OnlyBelowVersion".toList, X.windows_version_data item.winver.end_.win_version)]
      else [])
  ++ (if item.components = [] then [] else [("Components".toList, item.components)])
  ++ (if item.tasks = [] then [] else [("Tasks".toList, item.tasks)])

/-- The common clauses in the order the specification gives: the three selector
lists, then the version-range overrides. -/
def item_clauses_selectors_first (X : externals) (item : item) (header : header) :
    List (List Char × List Char) :=
  (if item.languages = [] then [] else [("Languages".toList, item.languages)])
  ++ (if item.components = [] then [] else [("Components".toList, item.components)])
  ++ (if item.tasks = [] then [] else [("Tasks".toList, item.tasks)])
  ++ (if item.winver.begin ≠ header.winver.begin then
      [("MinVersion".toList, X.windows_version_data item.winver.begin.win_version)] else [])
  ++ (if item.winver.end_ ≠ header.winver.end_ then
      [("OnlyBelowVersion".toList, X.windows_version_data item.winver.end_.win_version)]
      else [])

/-- The text of a run of clauses each written after the separator `; `. -/
def separated (cs : List (List Char × List Char)) : List Char :=
  cs.flatMap (fun c => property_text c.1 c.2 false)

/-- The clauses the loop body of `write_registry` writes for an entry, in the
order of its statements; `b` is the number base of the stream.  The two string
properties `Root` and `ValueType` are left out when their text is empty. -/
def registry_written (X : externals) (b : fmtbase) (entry : registry_entry)
    (header : header) : List (List Char × List Char) :=
  (if X.hive_name entry.hive = [] then [] else [("Root".toList, X.hive_name entry.hive)])
  ++ [("Subkey".toList, quoted entry.key)]
  ++ (if entry.type ≠ X.None ∧ X.value_type entry.type ≠ [] then
      [("ValueType".toList, X.value_type entry.type)] else [])
  ++ (if entry.name ≠ [] then [("ValueName".toList, quoted entry.name)] else [])
  ++ (if entry.value ≠ [] then [("ValueData".toList, quoted entry.value)] else [])
  ++ (if entry.permission ≠ -1 then
      [("Permissions".toList, int_digits b entry.permission)] else [])
  ++ item_clauses X entry.toitem header
  ++ (if entry.options ≠ 0 then [("Flags".toList, X.flags entry.options)] else [])

/-- The text of the written clauses of an entry: `Root` is the property marked
first, every other clause follows the separator `; `. -/
def written_text (cs : List (List Char × List Char)) : List Char :=
  cs.flatMap (fun c => property_text c.1 c.2 (decide (c.1 = "Root".toList)))

/-- The `keyvalue` records `write_setup` inserts, in the order of its
statements. -/
def setup_keyvalues (header : header) : List keyvalue :=
  [
    ⟨"AppName".toList, header.app_name⟩,
    ⟨"AppComments".toList, header.app_comments⟩,
    ⟨"AppContact".toList, header.app_contact⟩,
    ⟨"AppCopyright".toList, header.app_copyright⟩,
    ⟨"AppId".toList, header.app_id⟩,
    ⟨"AppModifyPath".toList, header.app_modify_path⟩,
    ⟨"AppMutex".toList, header.app_mutex⟩,
    ⟨"AppName".toList, header.app_name⟩,
    ⟨"AppPublisher".toList, header.app_publisher⟩,
    ⟨"AppPublisherUrl".toList, header.app_publisher_url⟩,
    ⟨"AppReadmeFile".toList, header.app_readme_file⟩,
    ⟨"AppSupportPhone".toList, header.app_support_phone⟩,
    ⟨"AppSupportUrl".toList, header.app_support_url⟩,
    ⟨"AppUpdatesUrl".toList, header.app_updates_url⟩,
    ⟨"AppVersion".toList, header.app_version⟩,
    ⟨"AppVerName".toList, header.app_versioned_name⟩,
    ⟨"OutputBaseFilename".toList, header.base_filename⟩,
    ⟨"CloseApplicationsFilter".toList, header.close_applications_filter⟩,
    ⟨"CreateUninstallRegKey".toList, header.create_uninstall_registry_key⟩,
    ⟨"DefaultDirName".toList, header.default_dir_name⟩,
    ⟨"DefaultGroupName".toList, header.default_group_name⟩,
    ⟨"DefaultUserInfoSerial".toList, header.default_serial⟩,
    ⟨"DefaultUserInfoName".toList, header.default_user_name⟩,
    ⟨"DefaultUserInfoOrg".toList, header.default_user_organisation⟩,
    ⟨"InfoAfterFile".toList, header.info_after⟩,
    ⟨"InfoBeforeFile".toList, header.info_before⟩,
    ⟨"SetupMutex".toList, header.setup_mutex⟩,
    ⟨"UninstallFilesDir".toList, header.uninstall_files_dir⟩,
    ⟨"UninstallIconFile".toList, header.uninstall_icon⟩,
    ⟨"UninstallIconName".toList, header.uninstall_icon_name⟩,
    ⟨"UninstallDisplayName".toList, header.uninstall_name⟩,
    ⟨"Uninstallable".toList, header.uninstallable⟩
  ]

/-- The text of the banner line in the number base `b`. -/
def version_text (b : fmtbase) (version : version) : List Char :=
  ";InnoSetupVersion=".toList ++ Nat.toDigits b.radix version.a ++ ".".toList
    ++ Nat.toDigits b.radix version.b ++ ".".toList ++ Nat.toDigits b.radix version.c
    ++ (if version.unicode then " (Unicode)".toList else []) ++ "\n".toList

/-! ## Concrete models -/

/-- An instance of the external declarations for concrete runs: enumerators
numbered along a table of names, `None` the first value type, a version and a
flag set written as their code in decimal. -/
def sample_externals : externals where
  None := 0
  hive_name := fun h =>
    (["HKCR", "HKCU", "HKLM", "HKU", "HKPD", "HKCC", "HKDD", "Unset"].getD h "").toList
  value_type := fun t =>
    (["None", "String", "ExpandString", "DWord", "Binary", "MultiString", "QWord"].getD t
      "").toList
  windows_version_data := fun v => Nat.toDigits 10 v
  flags := fun f => Nat.toDigits 10 f

/-- Settings with no member populated, over a default version range. -/
def empty_header (winver : windows_version_range) : header :=
  {
    app_name := [],
    app_comments := [],
    app_contact := [],
    app_copyright := [],
    app_id := [],
    app_modify_path := [],
    app_mutex := [],
    app_publisher := [],
    app_publisher_url := [],
    app_readme_file := [],
    app_support_phone := [],
    app_support_url := [],
    app_updates_url := [],
    app_version := [],
    app_versioned_name := [],
    base_filename := [],
    close_applications_filter := [],
    create_uninstall_registry_key := [],
    default_dir_name := [],
    default_group_name := [],
    default_serial := [],
    default_user_name := [],
    default_user_organisation := [],
    info_after := [],
    info_before := [],
    setup_mutex := [],
    uninstall_files_dir := [],
    uninstall_icon := [],
    uninstall_icon_name := [],
    uninstall_name := [],
    uninstallable := [],
    compiled_code := [],
    license_text := [],
    uninstaller_signature := [],
    winver := winver }

/-- A key-only registry entry: no value type, name, data, permission, flag or
selector, and the version range `winver`. -/
def key_only_entry (hive : Nat) (key : List Char) (none : Nat)
    (winver : windows_version_range) : registry_entry :=
  { components := [], tasks := [], languages := [], winver := winver,
    hive := hive, key := key, type := none, name := [], value := [],
    permission := -1, options := 0 }

/-- A version range used as the default of the concrete models. -/
def sample_range : windows_version_range := ⟨⟨0, 0⟩, ⟨0, 0⟩⟩

/-- The text of the line of one registry entry, line feed included. -/
def registry_entry_text (X : externals) (b : fmtbase) (entry : registry_entry)
    (header : header) : List Char :=
  written_text (registry_written X b entry header) ++ "\n".toList

/-- The text of the `[Setup]` section. -/
def setup_text (header : header) : List Char :=
  "\n[Setup]\n".toList
    ++ (setup_keyvalues header).flatMap (fun kv => keyvalue_text kv.key kv.value)

/-- The text of the `[Registry]` section in the number base `b`. -/
def registry_text (X : externals) (b : fmtbase) (info : info) : List Char :=
  "\n[Registry]\n".toList
    ++ info.registry_entries.flatMap (fun e => registry_entry_text X b e info.header)

/-- The model of the end-to-end example: version 6.0.0, settings with only
`AppName=Foo`, and the one key-only entry `Software\Foo` under `hive`. -/
def foo_info (X : externals) (unicode : Bool) (winver : windows_version_range)
    (hive : Nat) : info :=
  ⟨⟨6, 0, 0, unicode⟩, { empty_header winver with app_name := "Foo".toList },
    [key_only_entry hive "Software\\Foo".toList X.None winver]⟩

/-- A registry entry with every field populated: a binary value under HKCU with
a control byte in its name, a permission, flags, the three selector lists and a
range that differs from `sample_range` at both boundaries. -/
def full_entry : registry_entry :=
  { components := "main".toList, tasks := "t".toList, languages := "en".toList,
    winver := ⟨⟨5, 0⟩, ⟨0, 1⟩⟩,
    hive := 1, key := "Software\\Foo".toList, type := 4, name := "n\x01".toList,
    value := "v".toList, permission := 10, options := 3 }

/-- An item with a component selector and a range whose begin differs from
`sample_range`. -/
def component_item : item :=
  { components := "main".toList, tasks := [], languages := [], winver := ⟨⟨5, 0⟩, ⟨0, 0⟩⟩ }

/-- The clause line of one registry entry, without its line feed. -/
def registry_entry_line (X : externals) (b : fmtbase) (entry : registry_entry)
    (header : header) : List Char :=
  written_text (registry_written X b entry header)

/-- Two key-only entries under HKCU, `a` and `b`. -/
def two_entries_info : info :=
  ⟨⟨6, 0, 0, false⟩, empty_header sample_range,
    [key_only_entry 1 "a".toList sample_externals.None sample_range,
      key_only_entry 1 "b".toList sample_externals.None sample_range]⟩

/-! ## The static lists of the sections -/

/-- The static list of the settings: the key and the member of each `keyvalue`
statement of `write_setup`, in the order of the statements. -/
def setup_fields : List (List Char × (header → List Char)) :=
  [
    ("AppName".toList, header.app_name),
    ("AppComments".toList, header.app_comments),
    ("AppContact".toList, header.app_contact),
    ("AppCopyright".toList, header.app_copyright),
    ("AppId".toList, header.app_id),
    ("AppModifyPath".toList, header.app_modify_path),
    ("AppMutex".toList, header.app_mutex),
    ("AppName".toList, header.app_name),
    ("AppPublisher".toList, header.app_publisher),
    ("AppPublisherUrl".toList, header.app_publisher_url),
    ("AppReadmeFile".toList, header.app_readme_file),
    ("AppSupportPhone".toList, header.app_support_phone),
    ("AppSupportUrl".toList, header.app_support_url),
    ("AppUpdatesUrl".toList, header.app_updates_url),
    ("AppVersion".toList, header.app_version),
    ("AppVerName".toList, header.app_versioned_name),
    ("OutputBaseFilename".toList, header.base_filename),
    ("CloseApplicationsFilter".toList, header.close_applications_filter),
    ("CreateUninstallRegKey".toList, header.create_uninstall_registry_key),
    ("DefaultDirName".toList, header.default_dir_name),
    ("DefaultGroupName".toList, header.default_group_name),
    ("DefaultUserInfoSerial".toList, header.default_serial),
    ("DefaultUserInfoName".toList, header.default_user_name),
    ("DefaultUserInfoOrg".toList, header.default_user_organisation),
    ("InfoAfterFile".toList, header.info_after),
    ("InfoBeforeFile".toList, header.info_before),
    ("SetupMutex".toList, header.setup_mutex),
    ("UninstallFilesDir".toList, header.uninstall_files_dir),
    ("UninstallIconFile".toList, header.uninstall_icon),
    ("UninstallIconName".toList, header.uninstall_icon_name),
    ("UninstallDisplayName".toList, header.uninstall_name),
    ("Uninstallable".toList, header.uninstallable)
  ]

/-- The settings written for a header: those of the static list whose member is
not empty, in the order of the list. -/
def setup_emitted (h : header) : List (List Char × (header → List Char)) :=
  setup_fields.filter (fun f => decide (f.2 h ≠ []))

/-- The text the registry section holds after its header line, read off the
output of `write_registry`. -/
def registry_body (X : externals) (ofs cout : ostream) (version : version)
    (header : header) (entries : List registry_entry) : List Char :=
  (write_registry X ofs cout ⟨version, header, entries⟩).ofs.buf.drop
    (ofs.buf.length + "\n[Registry]\n".toList.length)

/-- A key-only entry under a hive that `sample_externals` gives no name (the
code 8 is past its table of names). -/
def unnamed_hive_entry : registry_entry :=
  key_only_entry 8 "Software\\Foo".toList sample_externals.None sample_range


/-! ## Definitions for the entry line with an unnamed value type -/

/-- The relation `fill_kept os os1`: the fill character of `os1` is the one of
`os`, or `'0'`, the one `std::setfill('0')` sets. -/
def fill_kept (os os1 : ostream) : Prop :=
  os1.fill = os.fill ∨ os1.fill = '0'

/-- A key-only entry under HKCU whose subkey path is the one control byte
0x01. -/
def control_key_entry : registry_entry :=
  key_only_entry 1 [Char.ofNat 0x01] sample_externals.None sample_range

/-! # Theorems -/

/-! ## What an insertion appends -/

/-- With no pending field width, nothing is padded. -/
theorem ostream.pad_of_width_zero (os : ostream) (s : List Char) (h : os.width = 0) :
    os.pad s = s := by
  simp [ostream.pad, h]

theorem emits_nil (os : ostream) : emits os [] os := by
  intro h
  simp [h]

theorem emits_append {os os1 os2 : ostream} {s t : List Char}
    (h1 : emits os s os1) (h2 : emits os1 t os2) : emits os (s ++ t) os2 := by
  intro h
  obtain ⟨b1, f1, w1⟩ := h1 h
  obtain ⟨b2, f2, w2⟩ := h2 w1
  exact ⟨by rw [b2, b1, List.append_assoc], by rw [f2, f1], w2⟩

theorem emits_congr {os os1 : ostream} {s t : List Char}
    (h1 : emits os s os1) (e : s = t) : emits os t os1 := by
  subst e
  exact h1

theorem emits_write (os : ostream) (s : List Char) : emits os s (os.write s) := by
  intro h
  simp [ostream.write, ostream.pad_of_width_zero os s h]

theorem emits_put_char (os : ostream) (c : Char) : emits os [c] (os.put_char c) :=
  emits_write os [c]

theorem emits_put_int (os : ostream) (v : Int) :
    emits os (int_digits os.basefield v) (os.put_int v) :=
  emits_write os _

theorem emits_put_unsigned (os : ostream) (v : Nat) :
    emits os (Nat.toDigits os.basefield.radix v) (os.put_unsigned v) :=
  emits_write os _

/-! ## The text of the scalar emitters -/

theorem emits_put_keyvalue (os : ostream) (kv : keyvalue) :
    emits os (keyvalue_text kv.key kv.value) (put_keyvalue os kv) := by
  unfold put_keyvalue keyvalue_text
  by_cases hv : kv.value = []
  · simp [hv, emits_nil]
  · simp only [List.isEmpty_iff, hv, not_false_eq_true, if_true, if_false]
    exact emits_append (emits_append (emits_append (emits_write _ _) (emits_write _ _))
      (emits_write _ _)) (emits_write _ _)

theorem emits_separator (os : ostream) (first : Bool) :
    emits os (if first then [] else "; ".toList)
      (if ¬ first then os.write "; ".toList else os) := by
  cases first
  · simpa using emits_write os "; ".toList
  · simpa using emits_nil os

/-- The generic insertion writes the clause whatever the value is. -/
theorem emits_put_property {T : Type} (put : ostream → T → ostream) (os : ostream)
    (prop : property T) (t : List Char)
    (hput : ∀ os1 : ostream, os1.basefield = os.basefield → emits os1 t (put os1 prop.value)) :
    emits os (property_text prop.key t prop.first) (put_property put os prop) := by
  intro h
  have h1 := emits_append (emits_append (emits_separator os prop.first)
    (emits_write _ prop.key)) (emits_write _ ": ".toList)
  have hb := (h1 h).2.1
  have h2 := emits_append h1 (hput _ hb)
  have h3 := h2 h
  unfold put_property
  simpa [property_text, clause, List.append_assoc] using h3

/-- The insertion of a string property writes nothing for the empty string. -/
theorem emits_put_property_string (os : ostream) (prop : property (List Char)) :
    emits os (if prop.value = [] then [] else property_text prop.key prop.value prop.first)
      (put_property_string os prop) := by
  unfold put_property_string
  by_cases hv : prop.value = []
  · simp [hv, emits_nil]
  · simp only [List.isEmpty_iff, hv, not_false_eq_true, if_true, if_false]
    have h1 := emits_append (emits_append (emits_append (emits_separator os prop.first)
      (emits_write _ prop.key)) (emits_write _ ": ".toList)) (emits_write _ prop.value)
    exact emits_congr h1 (by simp [property_text, clause, List.append_assoc])

theorem hex_two_digits : ∀ n, n < 32 →
    List.replicate (2 - (int_digits fmtbase.hex (Int.ofNat n)).length) '0'
      ++ int_digits fmtbase.hex (Int.ofNat n)
      = [Nat.digitChar (n / 16), Nat.digitChar (n % 16)] := by
  decide

theorem char_lt_space (c : Char) : c < ' ' ↔ c.toNat < 32 := by
  rw [Char.lt_def]
  rfl

theorem char_ne_iff (c d : Char) : c ≠ d ↔ c.toNat ≠ d.toNat := by
  constructor
  · intro h e
    exact h (Char.ext (UInt32.ext e))
  · intro h e
    exact h (by rw [e])

theorem emits_put_quoted_char (os : ostream) (i : Char) :
    emits os (escaped i) (put_quoted_char os i) := by
  intro h
  unfold put_quoted_char escaped
  have e : (i < ' ' ∧ i ≠ '\t' ∧ i ≠ '\r' ∧ i ≠ '\n') ↔
      (i.toNat < 0x20 ∧ i.toNat ≠ 0x09 ∧ i.toNat ≠ 0x0A ∧ i.toNat ≠ 0x0D) := by
    rw [char_lt_space, char_ne_iff, char_ne_iff, char_ne_iff]
    have e1 : ('\t').toNat = 9 := rfl
    have e2 : ('\r').toNat = 13 := rfl
    have e3 : ('\n').toNat = 10 := rfl
    rw [e1, e2, e3]
    tauto
  by_cases hc : i.toNat < 0x20 ∧ i.toNat ≠ 0x09 ∧ i.toNat ≠ 0x0A ∧ i.toNat ≠ 0x0D
  · have hc1 := e.mpr hc
    dsimp only
    rw [if_pos hc1, if_pos hc]
    have hd := hex_two_digits i.toNat hc.1
    simp only [ostream.put_char, ostream.write, ostream.hex, ostream.setfill, ostream.setw,
      ostream.put_int, ostream.setf_basefield, ostream.pad, h]
    simp only [hd]
    simp
  · have hc1 : ¬ (i < ' ' ∧ i ≠ '\t' ∧ i ≠ '\r' ∧ i ≠ '\n') := fun x => hc (e.mp x)
    dsimp only
    rw [if_neg hc1, if_neg hc]
    exact emits_put_char os i h

theorem emits_foldl_put_quoted_char (str : List Char) (os : ostream) :
    emits os (str.flatMap escaped) (str.foldl put_quoted_char os) := by
  induction str generalizing os with
  | nil => simpa using emits_nil os
  | cons i rest ih =>
    simpa [List.flatMap_cons] using emits_append (emits_put_quoted_char os i) (ih _)

theorem emits_put_quoted_nocolor (os : ostream) (str : List Char) :
    emits os (quoted str) (put_quoted_nocolor os str) := by
  unfold put_quoted_nocolor quoted
  have h := emits_append (emits_append (emits_put_char os '"')
    (emits_foldl_put_quoted_char str _)) (emits_put_char _ '"')
  exact emits_congr h (by simp)

/-! ## The text of the section writers -/

theorem emits_ite (c : Prop) [Decidable c] {os os1 : ostream} {t : List Char}
    (h : emits os t os1) : emits os (if c then t else []) (if c then os1 else os) := by
  by_cases hc : c
  · simpa [hc] using h
  · simpa [hc] using emits_nil os

theorem stringify_write (text : List Char) :
    stringify (fun os (_ : Unit) => os.write text) () = text := by
  simp [stringify, ostream.write, ostream.pad, ostream.fresh]

theorem stringify_put_hive_name (X : externals) (hive : Nat) :
    stringify (put_hive_name X) hive = X.hive_name hive := by
  simp [stringify, put_hive_name, ostream.write, ostream.pad, ostream.fresh]

theorem stringify_put_value_type (X : externals) (type : Nat) :
    stringify (put_value_type X) type = X.value_type type := by
  simp [stringify, put_value_type, ostream.write, ostream.pad, ostream.fresh]

theorem emits_foldl_put_keyvalue (kvs : List keyvalue) (os : ostream) :
    emits os (kvs.flatMap (fun kv => keyvalue_text kv.key kv.value))
      (kvs.foldl put_keyvalue os) := by
  induction kvs generalizing os with
  | nil => simpa using emits_nil os
  | cons kv rest ih =>
    simpa [List.flatMap_cons] using emits_append (emits_put_keyvalue os kv) (ih _)

theorem write_setup_eq_foldl (ofs : ostream) (header : header) :
    write_setup ofs header
      = (setup_keyvalues header).foldl put_keyvalue (ofs.write "\n[Setup]\n".toList) := rfl

theorem emits_write_setup (ofs : ostream) (header : header) :
    emits ofs ("\n[Setup]\n".toList
        ++ (setup_keyvalues header).flatMap (fun kv => keyvalue_text kv.key kv.value))
      (write_setup ofs header) := by
  rw [write_setup_eq_foldl]
  exact emits_append (emits_write _ _) (emits_foldl_put_keyvalue _ _)

theorem emits_write_version (ofs : ostream) (version : version) :
    emits ofs (version_text ofs.basefield version) (write_version ofs version) := by
  intro h
  cases hu : version.unicode <;>
    simp [write_version, version_text, hu, ostream.write, ostream.put_unsigned,
      ostream.pad, h]

theorem emits_write_item (X : externals) (ofs : ostream) (item : item) (header : header) :
    emits ofs (separated (item_clauses X item header)) (write_item X ofs item header) := by
  have h1 := emits_put_property_string ofs ⟨"Languages".toList, item.languages, false⟩
  have h2 := fun os : ostream => emits_ite (item.winver.begin ≠ header.winver.begin)
    (emits_put_property (put_windows_version_data X) os
      ⟨"MinVersion".toList, item.winver.begin.win_version, false⟩
      (X.windows_version_data item.winver.begin.win_version) (fun os1 _ => emits_write os1 _))
  have h3 := fun os : ostream => emits_ite (item.winver.end_ ≠ header.winver.end_)
    (emits_put_property (put_windows_version_data X) os
      ⟨"OnlyBelowVersion".toList, item.winver.end_.win_version, false⟩
      (X.windows_version_data item.winver.end_.win_version) (fun os1 _ => emits_write os1 _))
  have h4 := fun os : ostream =>
    emits_put_property_string os ⟨"Components".toList, item.components, false⟩
  have h5 := fun os : ostream =>
    emits_put_property_string os ⟨"Tasks".toList, item.tasks, false⟩
  have h := emits_append (emits_append (emits_append (emits_append h1 (h2 _)) (h3 _)) (h4 _))
    (h5 _)
  unfold write_item
  refine emits_congr h ?_
  simp only [separated, item_clauses, List.flatMap_append]
  split_ifs <;> simp
theorem emits_append_base {os os1 os2 : ostream} {s t : List Char}
    (h1 : emits os s os1) (h2 : os1.basefield = os.basefield → emits os1 t os2) :
    emits os (s ++ t) os2 := by
  intro h
  exact emits_append h1 (h2 (h1 h).2.1) h

theorem emits_permissions (os : ostream) (b : fmtbase) (hb : os.basefield = b)
    (permission : Int) :
    emits os
      (if permission ≠ -1 then
        property_text "Permissions".toList (int_digits b permission) false else [])
      (if permission ≠ -1 then
        put_property ostream.put_int os ⟨"Permissions".toList, permission, false⟩ else os) := by
  subst hb
  exact emits_ite _ (emits_put_property ostream.put_int os
    ⟨"Permissions".toList, permission, false⟩ (int_digits os.basefield permission)
    (fun os1 h1 => h1 ▸ emits_put_int os1 permission))

theorem written_text_append (cs ds : List (List Char × List Char)) :
    written_text (cs ++ ds) = written_text cs ++ written_text ds := by
  simp [written_text, List.flatMap_append]

theorem written_text_item_clauses (X : externals) (item : item) (header : header) :
    written_text (item_clauses X item header) = separated (item_clauses X item header) := by
  simp only [written_text, separated, item_clauses, List.flatMap_append]
  split_ifs <;> simp

theorem written_text_nil : written_text [] = [] := rfl

theorem written_text_root (v : List Char) :
    written_text [("Root".toList, v)] = property_text "Root".toList v true := by
  simp [written_text]

theorem written_text_other (k v : List Char) (hk : k ≠ "Root".toList) :
    written_text [(k, v)] = property_text k v false := by
  have e : decide (k = "Root".toList) = false := decide_eq_false hk
  simp only [written_text, List.flatMap_cons, List.flatMap_nil, List.append_nil, e]

theorem written_text_ite (c : Prop) [Decidable c] (cs ds : List (List Char × List Char)) :
    written_text (if c then cs else ds) = if c then written_text cs else written_text ds := by
  split_ifs <;> rfl

theorem emits_write_registry_entry (X : externals) (ofs : ostream) (entry : registry_entry)
    (header : header) :
    emits ofs (registry_entry_text X ofs.basefield entry header)
      (write_registry_entry X ofs entry header) := by
  have h1 := emits_put_property_string ofs
    ⟨"Root".toList, stringify (put_hive_name X) entry.hive, true⟩
  have h2 := fun os : ostream => emits_put_property put_quoted_nocolor os
    ⟨"Subkey".toList, entry.key, false⟩ (quoted entry.key)
    (fun os1 _ => emits_put_quoted_nocolor os1 entry.key)
  have h3 := fun os : ostream => emits_ite (entry.type ≠ X.None)
    (emits_put_property_string os
      ⟨"ValueType".toList, stringify (put_value_type X) entry.type, false⟩)
  have h4 := fun os : ostream => emits_ite (¬ entry.name.isEmpty)
    (emits_put_property put_quoted_nocolor os
      ⟨"ValueName".toList, entry.name, false⟩ (quoted entry.name)
      (fun os1 _ => emits_put_quoted_nocolor os1 entry.name))
  have h5 := fun os : ostream => emits_ite (¬ entry.value.isEmpty)
    (emits_put_property put_quoted_nocolor os
      ⟨"ValueData".toList, entry.value, false⟩ (quoted entry.value)
      (fun os1 _ => emits_put_quoted_nocolor os1 entry.value))
  have h7 := fun os : ostream => emits_write_item X os entry.toitem header
  have h8 := fun os : ostream => emits_ite (entry.options ≠ 0)
    (emits_put_property (put_flags X) os ⟨"Flags".toList, entry.options, false⟩
      (X.flags entry.options) (fun os1 _ => emits_write os1 _))
  have a2 := emits_append h1 (h2 _)
  have a3 := emits_append a2 (h3 _)
  have a4 := emits_append a3 (h4 _)
  have a5 := emits_append a4 (h5 _)
  have a6 := emits_append_base a5
    (fun hb => emits_permissions _ ofs.basefield hb entry.permission)
  have a7 := emits_append a6 (h7 _)
  have a8 := emits_append a7 (h8 _)
  have h := emits_append a8 (emits_write _ "\n".toList)
  refine emits_congr h ?_
  simp only [registry_entry_text, registry_written, written_text_append,
    written_text_item_clauses, stringify_put_hive_name, stringify_put_value_type,
    written_text_ite, written_text_nil, written_text_root,
    written_text_other "Subkey".toList _ (by decide),
    written_text_other "ValueType".toList _ (by decide),
    written_text_other "ValueName".toList _ (by decide),
    written_text_other "ValueData".toList _ (by decide),
    written_text_other "Permissions".toList _ (by decide),
    written_text_other "Flags".toList _ (by decide),
    List.isEmpty_iff, ite_and, ite_not, List.append_assoc]

theorem emits_foldl_write_registry_entry (X : externals) (header : header) (b : fmtbase)
    (entries : List registry_entry) :
    ∀ ofs : ostream, ofs.basefield = b →
      emits ofs (entries.flatMap (fun e => registry_entry_text X b e header))
        (entries.foldl (fun ofs entry => write_registry_entry X ofs entry header) ofs) := by
  induction entries with
  | nil =>
    intro ofs _
    simpa using emits_nil ofs
  | cons e rest ih =>
    intro ofs hb
    have h1 := emits_write_registry_entry X ofs e header
    rw [hb] at h1
    simpa [List.flatMap_cons] using
      emits_append_base h1 (fun hb1 => ih _ (hb1.trans hb))

theorem emits_write_registry (X : externals) (ofs cout : ostream) (info : info) :
    emits ofs (registry_text X ofs.basefield info) (write_registry X ofs cout info).ofs := by
  unfold write_registry registry_text
  exact emits_append_base (emits_write ofs _)
    (fun hb => emits_foldl_write_registry_entry X info.header ofs.basefield _ _ hb)

theorem emits_write_script (X : externals) (ofs cout : ostream) (info : info) :
    emits ofs (version_text ofs.basefield info.version ++ setup_text info.header
        ++ registry_text X ofs.basefield info)
      (write_script X ofs cout info).ofs := by
  unfold write_script
  have h1 := emits_append (emits_write_version ofs info.version)
    (emits_write_setup _ info.header)
  exact emits_append_base h1 (fun hb => hb ▸ emits_write_registry X _ cout info)
/-! ## The end-to-end example -/

theorem quoted_software_foo :
    quoted "Software\\Foo".toList = "\"Software\\Foo\"".toList := by
  decide

theorem setup_text_foo (winver : windows_version_range) :
    setup_text { empty_header winver with app_name := "Foo".toList }
      = "\n[Setup]\n".toList ++ (List.replicate 2 "AppName=Foo\n".toList).flatten := by
  rfl

theorem version_text_six (unicode : Bool) :
    version_text fmtbase.dec ⟨6, 0, 0, unicode⟩
      = ";InnoSetupVersion=6.0.0".toList
        ++ (if unicode then " (Unicode)".toList else []) ++ "\n".toList := by
  cases unicode <;> decide

theorem registry_text_foo (X : externals) (b : fmtbase) (unicode : Bool)
    (winver : windows_version_range) (hive : Nat) (hh : X.hive_name hive = "HKCU".toList) :
    registry_text X b (foo_info X unicode winver hive)
      = "\n[Registry]\nRoot: HKCU; Subkey: \"Software\\Foo\"\n".toList := by
  simp only [registry_text, foo_info, List.flatMap_cons, List.flatMap_nil, List.append_nil,
    registry_entry_text, registry_written, item_clauses, key_only_entry, hh,
    quoted_software_foo]
  simp [written_text, property_text, clause, empty_header]

/-- C1 (counterexample).  On the model of the example (version 6.0.0, only
`AppName=Foo`, one key-only entry under HKCU) `write_script` writes an empty
line before each section header and no blank line after the entry line, so the
output is not the six lines of the claim. -/
theorem write_script_foo_not_six_lines :
    (write_script sample_externals ostream.fresh ostream.fresh
        (foo_info sample_externals false sample_range 1)).ofs.buf
      = (";InnoSetupVersion=6.0.0\n\n[Setup]\nAppName=Foo\nAppName=Foo\n\n[Registry]\n"
          ++ "Root: HKCU; Subkey: \"Software\\Foo\"\n").toList
    ∧ (write_script sample_externals ostream.fresh ostream.fresh
        (foo_info sample_externals false sample_range 1)).ofs.buf
      ≠ (";InnoSetupVersion=6.0.0\n[Setup]\nAppName=Foo\n[Registry]\n"
          ++ "Root: HKCU; Subkey: \"Software\\Foo\"\n\n").toList := by
  decide

/-- C1 (amended).  For the model of the example, whatever the wide-character
flag and the default range, the output of `write_script` on a new stream is
exactly: the banner line, an empty line, the `[Setup]` header line, `AppName=Foo`
lines and no line of another key, an empty line, the `[Registry]` header line,
and the line `Root: HKCU; Subkey: "Software\Foo"` ended by one line feed. -/
theorem write_script_foo (X : externals) (unicode : Bool) (winver : windows_version_range)
    (hive : Nat) (cout : ostream) (hh : X.hive_name hive = "HKCU".toList) :
    ∃ n, 0 < n ∧
      (write_script X ostream.fresh cout (foo_info X unicode winver hive)).ofs.buf
        = ";InnoSetupVersion=6.0.0".toList
          ++ (if unicode then " (Unicode)".toList else []) ++ "\n".toList
          ++ "\n".toList
          ++ "[Setup]\n".toList
          ++ (List.replicate n "AppName=Foo\n".toList).flatten
          ++ "\n".toList
          ++ "[Registry]\n".toList
          ++ "Root: HKCU; Subkey: \"Software\\Foo\"\n".toList := by
  refine ⟨2, by decide, ?_⟩
  have h := (emits_write_script X ostream.fresh cout (foo_info X unicode winver hive) rfl).1
  rw [h, registry_text_foo X _ unicode winver hive hh]
  have e : (foo_info X unicode winver hive).header
      = { empty_header winver with app_name := "Foo".toList } := rfl
  have ev : (foo_info X unicode winver hive).version = ⟨6, 0, 0, unicode⟩ := rfl
  have eb : ostream.fresh.basefield = fmtbase.dec := rfl
  rw [e, setup_text_foo, ev, eb, version_text_six]
  cases unicode <;> simp [ostream.fresh]

/-- C1 (witness): the amended statement on the sample externals, where the hive
numbered 1 is HKCU. -/
theorem write_script_foo_witness :
    sample_externals.hive_name 1 = "HKCU".toList ∧
    ∃ n, 0 < n ∧
      (write_script sample_externals ostream.fresh ostream.fresh
          (foo_info sample_externals true sample_range 1)).ofs.buf
        = ";InnoSetupVersion=6.0.0".toList
          ++ (if true then " (Unicode)".toList else []) ++ "\n".toList
          ++ "\n".toList
          ++ "[Setup]\n".toList
          ++ (List.replicate n "AppName=Foo\n".toList).flatten
          ++ "\n".toList
          ++ "[Registry]\n".toList
          ++ "Root: HKCU; Subkey: \"Software\\Foo\"\n".toList :=
  ⟨rfl, write_script_foo sample_externals true sample_range 1 ostream.fresh rfl⟩

/-! ## The quoted form -/

/-- C2.  With no pending field width, the insertion of a `quoted_nocolor`
appends a double quote, then for each byte of the text in order its escaped form
(`<`, the two hexadecimal digits of its value, `>` for a byte below 0x20 other
than tab, line feed and carriage return; the byte itself otherwise), then a
double quote; and the text `\x01AB` gives `"<01>AB"`. -/
theorem put_quoted_nocolor_buf (os : ostream) (text : List Char) (hw : os.width = 0) :
    (put_quoted_nocolor os text).buf
        = os.buf ++ (['"'] ++ text.flatMap (fun b =>
            if b.toNat < 0x20 ∧ b.toNat ≠ 0x09 ∧ b.toNat ≠ 0x0A ∧ b.toNat ≠ 0x0D then
              ['<', Nat.digitChar (b.toNat / 16), Nat.digitChar (b.toNat % 16), '>']
            else [b]) ++ ['"'])
    ∧ (put_quoted_nocolor ostream.fresh [Char.ofNat 0x01, 'A', 'B']).buf
        = "\"<01>AB\"".toList := by
  refine ⟨?_, by decide⟩
  rw [(emits_put_quoted_nocolor os text hw).1]
  rfl

/-- C2 (witness): the quoted form of a text with the bytes 0x1F, tab and `x`,
appended to a stream that holds `k=`. -/
theorem put_quoted_nocolor_buf_witness :
    (put_quoted_nocolor ⟨"k=".toList, fmtbase.dec, ' ', 0⟩
        [Char.ofNat 0x1F, '\t', 'x']).buf = "k=\"<1f>\tx\"".toList :=
  (put_quoted_nocolor_buf ⟨"k=".toList, fmtbase.dec, ' ', 0⟩
    [Char.ofNat 0x1F, '\t', 'x'] rfl).1
/-! ## The line of a registry entry -/

theorem written_text_cons (c : List Char × List Char) (cs : List (List Char × List Char)) :
    written_text (c :: cs)
      = property_text c.1 c.2 (decide (c.1 = "Root".toList)) ++ written_text cs := by
  simp [written_text, List.flatMap_cons]

set_option maxRecDepth 20000

theorem item_clauses_keys_sublist (X : externals) (item : item) (header : header) :
    ((item_clauses X item header).map Prod.fst).Sublist
      ["Languages".toList, "MinVersion".toList, "OnlyBelowVersion".toList,
        "Components".toList, "Tasks".toList] := by
  unfold item_clauses
  split_ifs <;>
    simp only [List.map_append, List.map_cons, List.map_nil, List.nil_append,
      List.append_nil, List.cons_append] <;>
    decide

/-- C4 (counterexample).  For an item with a component selector and a range
whose begin differs from the default, `write_item` writes the `MinVersion`
override before the `Components` clause, not after it as the order of the claim
(selector lists first) would have it. -/
theorem write_item_override_before_components :
    (write_item sample_externals ostream.fresh component_item
        (empty_header sample_range)).buf = "; MinVersion: 5; Components: main".toList
    ∧ separated (item_clauses_selectors_first sample_externals component_item
        (empty_header sample_range)) = "; Components: main; MinVersion: 5".toList
    ∧ (write_item sample_externals ostream.fresh component_item
        (empty_header sample_range)).buf
      ≠ separated (item_clauses_selectors_first sample_externals component_item
        (empty_header sample_range)) := by
  decide

/-- C4 (amended).  With no pending field width, `write_item` writes its clauses,
each after the separator `; `, in the fixed order `Languages`, `MinVersion`,
`OnlyBelowVersion`, `Components`, `Tasks`: the language selector comes first, the
version-range overrides next, the component and task selectors last. -/
theorem write_item_order (X : externals) (ofs : ostream) (item : item) (header : header)
    (hw : ofs.width = 0) :
    (write_item X ofs item header).buf = ofs.buf ++ separated (item_clauses X item header)
    ∧ ((item_clauses X item header).map Prod.fst).Sublist
        ["Languages".toList, "MinVersion".toList, "OnlyBelowVersion".toList,
          "Components".toList, "Tasks".toList] :=
  ⟨(emits_write_item X ofs item header hw).1, item_clauses_keys_sublist X item header⟩

/-- C4 (witness): the order of the clauses of the fully populated sample
entry. -/
theorem write_item_order_witness :
    (write_item sample_externals ostream.fresh full_entry.toitem
        (empty_header sample_range)).buf
      = ostream.fresh.buf
        ++ separated (item_clauses sample_externals full_entry.toitem
          (empty_header sample_range))
    ∧ (item_clauses sample_externals full_entry.toitem (empty_header sample_range)).map
        Prod.fst
      = ["Languages".toList, "MinVersion".toList, "OnlyBelowVersion".toList,
          "Components".toList, "Tasks".toList] :=
  ⟨(write_item_order sample_externals ostream.fresh full_entry.toitem
    (empty_header sample_range) rfl).1, by decide⟩

/-- C10.  With no pending field width, `write_item` writes the clauses of
`item_clauses`; among them there is a `MinVersion` clause if and only if the
begin of the entry's range differs from the begin of the default range, and an
`OnlyBelowVersion` clause if and only if the ends differ.  So a range equal to
the default gives neither clause, and a range that differs at its begin only
gives exactly one override clause, `MinVersion`. -/
theorem write_item_overrides (X : externals) (ofs : ostream) (item : item) (header : header)
    (hw : ofs.width = 0) :
    (write_item X ofs item header).buf = ofs.buf ++ separated (item_clauses X item header)
    ∧ ("MinVersion".toList ∈ (item_clauses X item header).map Prod.fst
        ↔ item.winver.begin ≠ header.winver.begin)
    ∧ ("OnlyBelowVersion".toList ∈ (item_clauses X item header).map Prod.fst
        ↔ item.winver.end_ ≠ header.winver.end_)
    ∧ (item.winver = header.winver →
        "MinVersion".toList ∉ (item_clauses X item header).map Prod.fst
        ∧ "OnlyBelowVersion".toList ∉ (item_clauses X item header).map Prod.fst)
    ∧ (item.winver.begin ≠ header.winver.begin → item.winver.end_ = header.winver.end_ →
        ((item_clauses X item header).map Prod.fst).filter
            (fun k => k = "MinVersion".toList ∨ k = "OnlyBelowVersion".toList)
          = ["MinVersion".toList]) := by
  have hmin : "MinVersion".toList ∈ (item_clauses X item header).map Prod.fst
      ↔ item.winver.begin ≠ header.winver.begin := by
    unfold item_clauses
    split_ifs <;> simp_all
  have hbelow : "OnlyBelowVersion".toList ∈ (item_clauses X item header).map Prod.fst
      ↔ item.winver.end_ ≠ header.winver.end_ := by
    unfold item_clauses
    split_ifs <;> simp_all
  refine ⟨(emits_write_item X ofs item header hw).1, hmin, hbelow, ?_, ?_⟩
  · intro h
    rw [hmin, hbelow, h]
    simp
  · intro hb he
    unfold item_clauses
    split_ifs <;> simp_all

/-- C10 (witness): an item whose range differs from the default at its begin
only gets the one override `MinVersion`. -/
theorem write_item_overrides_witness :
    (write_item sample_externals ostream.fresh component_item
        (empty_header sample_range)).buf = "; MinVersion: 5; Components: main".toList
    ∧ ((item_clauses sample_externals component_item (empty_header sample_range)).map
          Prod.fst).filter
            (fun k => k = "MinVersion".toList ∨ k = "OnlyBelowVersion".toList)
        = ["MinVersion".toList] :=
  ⟨by decide, (write_item_overrides sample_externals ostream.fresh component_item
    (empty_header sample_range) rfl).2.2.2.2 (by decide) (by decide)⟩
/-! ## The registry section -/

theorem registry_entry_line_head (X : externals) (b : fmtbase) (entry : registry_entry)
    (header : header) :
    (registry_entry_line X b entry header).head? = some 'R'
      ∨ (registry_entry_line X b entry header).head? = some ';' := by
  unfold registry_entry_line registry_written
  by_cases hr : X.hive_name entry.hive = []
  · right
    simp only [hr, if_true, List.nil_append, List.append_assoc, List.singleton_append,
      List.cons_append, written_text_cons]
    simp only [property_text, decide_eq_false (show "Subkey".toList ≠ "Root".toList by decide)]
    rfl
  · left
    simp only [hr, if_false, List.append_assoc, List.singleton_append, List.cons_append,
      written_text_cons]
    simp only [property_text, decide_eq_true (rfl : "Root".toList = "Root".toList)]
    rfl

/-- C5 (counterexample).  For two key-only entries the `[Registry]` section has
the two entry lines on consecutive lines: there is no blank line between
them. -/
theorem write_registry_no_blank_line :
    (write_registry sample_externals ostream.fresh ostream.fresh two_entries_info).ofs.buf
      = "\n[Registry]\nRoot: HKCU; Subkey: \"a\"\nRoot: HKCU; Subkey: \"b\"\n".toList
    ∧ (write_registry sample_externals ostream.fresh ostream.fresh two_entries_info).ofs.buf
      ≠ "\n[Registry]\nRoot: HKCU; Subkey: \"a\"\n\nRoot: HKCU; Subkey: \"b\"\n".toList := by
  decide

theorem no_blank_at_junction (l m p s : List Char) (hl : l.getLast? ≠ some '\n')
    (hm : m.head? ≠ some '\n') (h : l ++ '\n' :: m = p ++ '\n' :: '\n' :: s) :
    p.length + 2 ≤ l.length ∨ l.length + 1 ≤ p.length := by
  rcases List.append_eq_append_iff.mp h with ⟨a, hp, ha⟩ | ⟨c, hc, hs⟩
  · cases a with
    | nil =>
      simp only [List.nil_append, List.cons.injEq, true_and] at ha
      rw [ha] at hm
      exact absurd rfl hm
    | cons x rest =>
      right
      rw [hp]
      simp
  · cases c with
    | nil =>
      simp only [List.nil_append, List.cons.injEq, true_and] at hs
      rw [← hs] at hm
      exact absurd rfl hm
    | cons x rest =>
      cases rest with
      | nil =>
        simp only [List.singleton_append, List.cons.injEq] at hs
        rw [hc, ← hs.1] at hl
        simp at hl
      | cons y rest2 =>
        left
        rw [hc]
        simp

/-- C5 (amended).  With no pending field width, two consecutive entries of the
registry section are separated by exactly one line feed, the one that ends the
clause text of the first: the clause text of the second follows it at once and
begins with `R` (of `Root`) or with `;`.  The writer adds no empty line: unless
the clause text of the first entry itself ends with a line feed, every two
consecutive line feeds in the text of the two entries lie wholly inside the
clause text of the first or wholly inside the one of the second, none at their
boundary. -/
theorem write_registry_consecutive (X : externals) (ofs cout : ostream) (version : version)
    (header : header) (before : List registry_entry) (e1 e2 : registry_entry)
    (after : List registry_entry) (hw : ofs.width = 0) :
    (write_registry X ofs cout ⟨version, header, before ++ e1 :: e2 :: after⟩).ofs.buf
      = ofs.buf ++ "\n[Registry]\n".toList
        ++ before.flatMap (fun e => registry_entry_line X ofs.basefield e header ++ "\n".toList)
        ++ (registry_entry_line X ofs.basefield e1 header ++ "\n".toList
          ++ registry_entry_line X ofs.basefield e2 header ++ "\n".toList)
        ++ after.flatMap (fun e => registry_entry_line X ofs.basefield e header ++ "\n".toList)
    ∧ ((registry_entry_line X ofs.basefield e2 header).head? = some 'R'
        ∨ (registry_entry_line X ofs.basefield e2 header).head? = some ';')
    ∧ ((registry_entry_line X ofs.basefield e1 header).getLast? ≠ some '\n' →
        ∀ p s : List Char,
          registry_entry_line X ofs.basefield e1 header ++ "\n".toList
              ++ registry_entry_line X ofs.basefield e2 header
            = p ++ "\n\n".toList ++ s →
          p.length + 2 ≤ (registry_entry_line X ofs.basefield e1 header).length
          ∨ (registry_entry_line X ofs.basefield e1 header).length + 1 ≤ p.length) := by
  refine ⟨?_, registry_entry_line_head X _ e2 header, fun hl p s h => ?_⟩
  · rw [(emits_write_registry X ofs cout _ hw).1]
    simp [registry_text, registry_entry_text, registry_entry_line, List.flatMap_append,
      List.flatMap_cons, List.append_assoc]
  · have hm : (registry_entry_line X ofs.basefield e2 header).head? ≠ some '\n' := by
      rcases registry_entry_line_head X ofs.basefield e2 header with h2 | h2 <;>
        rw [h2] <;> decide
    refine no_blank_at_junction _ _ p s hl hm ?_
    have e : "\n".toList = ['\n'] := rfl
    have e2 : "\n\n".toList = ['\n', '\n'] := rfl
    rw [e, e2] at h
    simpa [List.append_assoc] using h

/-- C5 (witness): the section of the two sample entries, and an entry whose
task selector ends with a line feed: the empty line after it comes from its own
clause text. -/
theorem write_registry_consecutive_witness :
    (write_registry sample_externals ostream.fresh ostream.fresh two_entries_info).ofs.buf
      = ostream.fresh.buf ++ "\n[Registry]\n".toList
        ++ ([] : List registry_entry).flatMap (fun e =>
          registry_entry_line sample_externals ostream.fresh.basefield e
            (empty_header sample_range) ++ "\n".toList)
        ++ (registry_entry_line sample_externals ostream.fresh.basefield
            (key_only_entry 1 "a".toList sample_externals.None sample_range)
            (empty_header sample_range) ++ "\n".toList
          ++ registry_entry_line sample_externals ostream.fresh.basefield
            (key_only_entry 1 "b".toList sample_externals.None sample_range)
            (empty_header sample_range) ++ "\n".toList)
        ++ ([] : List registry_entry).flatMap (fun e =>
          registry_entry_line sample_externals ostream.fresh.basefield e
            (empty_header sample_range) ++ "\n".toList)
    ∧ registry_entry_line sample_externals fmtbase.dec
        { key_only_entry 1 "a".toList sample_externals.None sample_range with
          tasks := "t\n".toList } (empty_header sample_range)
      = "Root: HKCU; Subkey: \"a\"; Tasks: t\n".toList :=
  ⟨(write_registry_consecutive sample_externals ostream.fresh ostream.fresh ⟨6, 0, 0, false⟩
    (empty_header sample_range) []
    (key_only_entry 1 "a".toList sample_externals.None sample_range)
    (key_only_entry 1 "b".toList sample_externals.None sample_range) [] rfl).1, by decide⟩

/-! ## The settings section -/

/-- C6 (the code at the failing input).  For settings with only
`AppName=Foo`, `write_setup` writes the line `AppName=Foo` twice: the key
`AppName` is on two lines of the section. -/
theorem write_setup_app_name_twice :
    (write_setup ostream.fresh
        { empty_header sample_range with app_name := "Foo".toList }).buf
      = "\n[Setup]\nAppName=Foo\nAppName=Foo\n".toList := by
  decide
/-! ## Sentinel values -/

theorem mem_ite_singleton {α : Type} (p : Prop) [Decidable p] (c x : α) :
    c ∈ (if p then [x] else []) ↔ p ∧ c = x := by
  split_ifs with h <;> simp [h]

theorem mem_ite_nil_singleton {α : Type} (p : Prop) [Decidable p] (c x : α) :
    c ∈ (if p then [] else [x]) ↔ ¬ p ∧ c = x := by
  split_ifs with h <;> simp [h]

/-- C7 (counterexample).  A registry entry whose subkey path is the empty
string still gets the key `Subkey`, written as `Subkey: ""`. -/
theorem write_registry_entry_empty_subkey :
    (write_registry_entry sample_externals ostream.fresh
        (key_only_entry 1 [] sample_externals.None sample_range)
        (empty_header sample_range)).buf = "Root: HKCU; Subkey: \"\"\n".toList := by
  decide

/-- C7 (amended).  With no pending field width, the line of a registry entry is
the text of the clauses of `registry_written`.  Among them the clause `Subkey`
is always present, with the quoted subkey path as its value, also when the path
is empty; every other key is present only if its field is not the sentinel:
`Root` only for a non-empty hive name, `ValueType` only for a type other than
`None`, `ValueName`, `ValueData`, `Languages`, `Components`, `Tasks` only for a
non-empty string, `Permissions` only for a permission other than -1, `Flags`
only for flags other than 0. -/
theorem registry_written_not_sentinel (X : externals) (ofs : ostream)
    (entry : registry_entry) (header : header) (hw : ofs.width = 0) :
    (write_registry_entry X ofs entry header).buf
      = ofs.buf ++ written_text (registry_written X ofs.basefield entry header)
        ++ "\n".toList
    ∧ ("Subkey".toList, quoted entry.key) ∈ registry_written X ofs.basefield entry header
    ∧ ∀ c ∈ registry_written X ofs.basefield entry header,
        (c.1 = "Root".toList → X.hive_name entry.hive ≠ [])
        ∧ (c.1 = "ValueType".toList → entry.type ≠ X.None)
        ∧ (c.1 = "ValueName".toList → entry.name ≠ [])
        ∧ (c.1 = "ValueData".toList → entry.value ≠ [])
        ∧ (c.1 = "Permissions".toList → entry.permission ≠ -1)
        ∧ (c.1 = "Languages".toList → entry.languages ≠ [])
        ∧ (c.1 = "Components".toList → entry.components ≠ [])
        ∧ (c.1 = "Tasks".toList → entry.tasks ≠ [])
        ∧ (c.1 = "Flags".toList → entry.options ≠ 0) := by
  refine ⟨?_, ?_, ?_⟩
  · rw [(emits_write_registry_entry X ofs entry header hw).1, registry_entry_text,
      List.append_assoc]
  · simp [registry_written]
  · intro c hc
    simp only [registry_written, item_clauses, List.mem_append, mem_ite_singleton,
      mem_ite_nil_singleton, List.mem_singleton] at hc
    rcases hc with ((((((((h | h) | h) | h) | h) | h) | ((((h | h) | h) | h) | h))) | h)
    all_goals
      obtain ⟨hp, rfl⟩ := h
      refine ⟨?_, ?_, ?_, ?_, ?_, ?_, ?_, ?_, ?_⟩ <;> intro hk <;>
        first
          | exact hp
          | exact hp.1
          | simp at hk

/-- C7 (witness): the clauses of the fully populated sample entry. -/
theorem registry_written_not_sentinel_witness :
    (write_registry_entry sample_externals ostream.fresh full_entry
        (empty_header sample_range)).buf
      = ostream.fresh.buf
        ++ written_text (registry_written sample_externals ostream.fresh.basefield full_entry
          (empty_header sample_range))
        ++ "\n".toList :=
  (registry_written_not_sentinel sample_externals ostream.fresh full_entry
    (empty_header sample_range) rfl).1

/-! ## Properties -/

/-- C8 (counterexample).  The generic insertion writes an integer property whose
value is the sentinel: `; Permissions: -1` for -1, and `Flags: 0` for 0 marked
first. -/
theorem put_property_int_sentinel_written :
    (put_property ostream.put_int ostream.fresh ⟨"Permissions".toList, -1, false⟩).buf
      = "; Permissions: -1".toList
    ∧ (put_property ostream.put_int ostream.fresh ⟨"Flags".toList, 0, true⟩).buf
      = "Flags: 0".toList := by
  decide

/-- C8 (amended).  For every key and both values of `first`, the insertion of a
string property writes nothing, and leaves the stream as it is, when the value
is the empty string; the insertion of an integer property, with no pending
field width, writes the clause for every value, -1 and 0 included: the
separator `; ` unless `first`, the key, `: ` and the digits of the value. -/
theorem put_property_default (os : ostream) (key : List Char) (first : Bool) (v : Int)
    (hw : os.width = 0) :
    put_property_string os ⟨key, [], first⟩ = os
    ∧ (put_property ostream.put_int os ⟨key, v, first⟩).buf
      = os.buf ++ (if first then [] else "; ".toList) ++ key ++ ": ".toList
        ++ int_digits os.basefield v := by
  refine ⟨by simp [put_property_string], ?_⟩
  rw [(emits_put_property ostream.put_int os ⟨key, v, first⟩ (int_digits os.basefield v)
    (fun os1 h1 => h1 ▸ emits_put_int os1 v) hw).1]
  simp [property_text, clause, List.append_assoc]

/-- C8 (witness): the two insertions after `Root: HKCU`, for the value 0. -/
theorem put_property_default_witness :
    put_property_string ⟨"Root: HKCU".toList, fmtbase.dec, ' ', 0⟩
        ⟨"ValueType".toList, [], false⟩ = ⟨"Root: HKCU".toList, fmtbase.dec, ' ', 0⟩
    ∧ (put_property ostream.put_int ⟨"Root: HKCU".toList, fmtbase.dec, ' ', 0⟩
        ⟨"Flags".toList, 0, false⟩).buf
      = "Root: HKCU".toList ++ (if false then [] else "; ".toList) ++ "Flags".toList
        ++ ": ".toList ++ int_digits fmtbase.dec 0 :=
  ⟨(put_property_default ⟨"Root: HKCU".toList, fmtbase.dec, ' ', 0⟩ "ValueType".toList
      false 0 rfl).1,
    (put_property_default ⟨"Root: HKCU".toList, fmtbase.dec, ' ', 0⟩ "Flags".toList
      false 0 rfl).2⟩

/-- C9.  With no pending field width, for every key and string value the
insertion of a string property writes nothing when the value is empty; writes
exactly the key, `: ` and the value when the value is non-empty and `first` is
set; and writes exactly `; `, the key, `: ` and the value when the value is
non-empty and `first` is not set. -/
theorem put_property_string_buf (os : ostream) (key value : List Char)
    (hw : os.width = 0) :
    (∀ first, put_property_string os ⟨key, [], first⟩ = os)
    ∧ (value ≠ [] →
        (put_property_string os ⟨key, value, true⟩).buf
          = os.buf ++ key ++ ": ".toList ++ value)
    ∧ (value ≠ [] →
        (put_property_string os ⟨key, value, false⟩).buf
          = os.buf ++ "; ".toList ++ key ++ ": ".toList ++ value) := by
  refine ⟨fun first => by simp [put_property_string], fun hv => ?_, fun hv => ?_⟩
  · rw [(emits_put_property_string os ⟨key, value, true⟩ hw).1]
    simp [hv, property_text, clause, List.append_assoc]
  · rw [(emits_put_property_string os ⟨key, value, false⟩ hw).1]
    simp [hv, property_text, clause, List.append_assoc]

/-- C9 (witness): the property `Root` with the value `HKCU`, marked first on a
new stream and not marked after `x`. -/
theorem put_property_string_buf_witness :
    (put_property_string ostream.fresh ⟨"Root".toList, "HKCU".toList, true⟩).buf
      = "Root: HKCU".toList
    ∧ (put_property_string ⟨"x".toList, fmtbase.dec, ' ', 0⟩
        ⟨"Root".toList, "HKCU".toList, false⟩).buf = "x; Root: HKCU".toList :=
  ⟨(put_property_string_buf ostream.fresh "Root".toList "HKCU".toList rfl).2.1 (by decide),
    (put_property_string_buf ⟨"x".toList, fmtbase.dec, ' ', 0⟩ "Root".toList "HKCU".toList
      rfl).2.2 (by decide)⟩

/-! ## Key-value lines -/

/-- C11.  With no pending field width, for every key and string value the
insertion of a `keyvalue` writes nothing, and leaves the stream as it is, when
the value is empty; otherwise it writes exactly the key, `=`, the value and one
line feed. -/
theorem put_keyvalue_buf (os : ostream) (key value : List Char) (hw : os.width = 0) :
    put_keyvalue os ⟨key, []⟩ = os
    ∧ (value ≠ [] →
        (put_keyvalue os ⟨key, value⟩).buf
          = os.buf ++ key ++ "=".toList ++ value ++ "\n".toList) := by
  refine ⟨by simp [put_keyvalue], fun hv => ?_⟩
  rw [(emits_put_keyvalue os ⟨key, value⟩ hw).1]
  simp [keyvalue_text, hv, List.append_assoc]

/-- C11 (witness): the line `AppName=Foo` after the section header. -/
theorem put_keyvalue_buf_witness :
    (put_keyvalue ⟨"[Setup]\n".toList, fmtbase.dec, ' ', 0⟩
        ⟨"AppName".toList, "Foo".toList⟩).buf = "[Setup]\nAppName=Foo\n".toList :=
  (put_keyvalue_buf ⟨"[Setup]\n".toList, fmtbase.dec, ' ', 0⟩ "AppName".toList
    "Foo".toList rfl).2 (by decide)

/-! ## More on the quoted form -/

theorem digitChar_ne_quote : ∀ n, n < 32 →
    Nat.digitChar (n / 16) ≠ '"' ∧ Nat.digitChar (n % 16) ≠ '"' := by
  decide

theorem digitChar_not_control : ∀ n, n < 32 →
    0x20 ≤ (Nat.digitChar (n / 16)).toNat ∧ 0x20 ≤ (Nat.digitChar (n % 16)).toNat := by
  decide

theorem count_quote_escaped (b : Char) :
    (escaped b).count '"' = if b = '"' then 1 else 0 := by
  unfold escaped
  by_cases hc : b.toNat < 0x20 ∧ b.toNat ≠ 0x09 ∧ b.toNat ≠ 0x0A ∧ b.toNat ≠ 0x0D
  · have hb : b ≠ '"' := by
      intro e
      rw [e] at hc
      exact absurd hc.1 (by decide)
    obtain ⟨h1, h2⟩ := digitChar_ne_quote b.toNat hc.1
    rw [if_pos hc, if_neg hb]
    simp [List.count_cons, h1, h2]
  · rw [if_neg hc]
    by_cases hb : b = '"' <;> simp [List.count_cons, hb]

theorem count_quote_flatMap_escaped (text : List Char) :
    (text.flatMap escaped).count '"' = text.count '"' := by
  induction text with
  | nil => rfl
  | cons b rest ih =>
    rw [List.flatMap_cons, List.count_append, ih, count_quote_escaped, List.count_cons]
    by_cases hb : b = '"' <;> simp [hb, Nat.add_comm]

/-- C12 (counterexample).  For the text `a"b` the output of the insertion of a
`quoted_nocolor` holds a double quote between its first and its last one: the
quote of the text is copied as it is. -/
theorem put_quoted_nocolor_inner_quote :
    (put_quoted_nocolor ostream.fresh ['a', '"', 'b']).buf = ['"', 'a', '"', 'b', '"']
    ∧ '"' ∈ ['a', '"', 'b'].flatMap escaped := by
  decide

/-- C12 (amended).  With no pending field width, for every text the output of
the insertion of a `quoted_nocolor` begins with a double quote and ends with a
double quote, and holds between the two exactly as many double quotes as the
text does: a double quote of the text is copied unescaped, and the output is a
single quoted token when the text holds no double quote. -/
theorem put_quoted_nocolor_quotes (os : ostream) (text : List Char) (hw : os.width = 0) :
    (put_quoted_nocolor os text).buf
      = os.buf ++ (['"'] ++ text.flatMap escaped ++ ['"'])
    ∧ (text.flatMap escaped).count '"' = text.count '"'
    ∧ ('"' ∉ text → '"' ∉ text.flatMap escaped) := by
  refine ⟨?_, count_quote_flatMap_escaped text, fun h => ?_⟩
  · rw [(emits_put_quoted_nocolor os text hw).1]
    rfl
  · rw [← List.count_eq_zero, count_quote_flatMap_escaped, List.count_eq_zero]
    exact h

/-- C12 (witness): a text with one double quote and one control byte. -/
theorem put_quoted_nocolor_quotes_witness :
    (put_quoted_nocolor ostream.fresh ['a', '"', Char.ofNat 0x02]).buf
      = ostream.fresh.buf ++ (['"'] ++ ['a', '"', Char.ofNat 0x02].flatMap escaped ++ ['"'])
    ∧ (['a', '"', Char.ofNat 0x02].flatMap escaped).count '"' = 1 :=
  ⟨(put_quoted_nocolor_quotes ostream.fresh ['a', '"', Char.ofNat 0x02] rfl).1, by decide⟩

theorem escaped_control (b c : Char) (hc : c ∈ escaped b) (hlt : c.toNat < 0x20) :
    c = '\t' ∨ c = '\n' ∨ c = '\r' := by
  unfold escaped at hc
  by_cases hb : b.toNat < 0x20 ∧ b.toNat ≠ 0x09 ∧ b.toNat ≠ 0x0A ∧ b.toNat ≠ 0x0D
  · rw [if_pos hb] at hc
    obtain ⟨h1, h2⟩ := digitChar_not_control b.toNat hb.1
    simp only [List.mem_cons, List.mem_singleton, List.not_mem_nil, or_false] at hc
    rcases hc with h | h | h | h
    · rw [h] at hlt
      exact absurd hlt (by decide)
    · rw [h] at hlt
      omega
    · rw [h] at hlt
      omega
    · rw [h] at hlt
      exact absurd hlt (by decide)
  · rw [if_neg hb] at hc
    simp only [List.mem_singleton] at hc
    subst hc
    by_contra hn
    push_neg at hn
    obtain ⟨n1, n2, n3⟩ := hn
    rw [char_ne_iff] at n1 n2 n3
    exact hb ⟨hlt, n1, n2, n3⟩

/-- C13 (counterexample).  A tab, a line feed and a carriage return of the text
reach the sink as they are: the output for the text of these three bytes holds
bytes below 0x20. -/
theorem put_quoted_nocolor_control_bytes :
    (put_quoted_nocolor ostream.fresh ['\t', '\n', '\r']).buf = ['"', '\t', '\n', '\r', '"']
    ∧ ∃ c ∈ (put_quoted_nocolor ostream.fresh ['\t', '\n', '\r']).buf, c.toNat < 0x20 := by
  decide

/-- C13 (amended).  With no pending field width, the only bytes below 0x20 that
reach the sink through the insertion of a `quoted_nocolor` are tab, line feed
and carriage return: every byte of the quoted form that is below 0x20 is one of
the three, so every other control byte of the text is there in its `<hh>`
escaped form only. -/
theorem put_quoted_nocolor_control (os : ostream) (text : List Char) (hw : os.width = 0) :
    (put_quoted_nocolor os text).buf = os.buf ++ quoted text
    ∧ ∀ c ∈ quoted text, c.toNat < 0x20 → c = '\t' ∨ c = '\n' ∨ c = '\r' := by
  refine ⟨(emits_put_quoted_nocolor os text hw).1, fun c hc hlt => ?_⟩
  unfold quoted at hc
  simp only [List.mem_cons, List.mem_append, List.mem_singleton, List.mem_flatMap,
    List.not_mem_nil, or_false] at hc
  rcases hc with (h | ⟨b, _, hb⟩) | h
  · rw [h] at hlt
    exact absurd hlt (by decide)
  · exact escaped_control b c hb hlt
  · rw [h] at hlt
    exact absurd hlt (by decide)

/-- C13 (witness): the quoted form of a text with the bytes 0x01 and tab. -/
theorem put_quoted_nocolor_control_witness :
    (put_quoted_nocolor ostream.fresh [Char.ofNat 0x01, '\t']).buf
      = ostream.fresh.buf ++ quoted [Char.ofNat 0x01, '\t']
    ∧ quoted [Char.ofNat 0x01, '\t'] = ['"', '<', '0', '1', '>', '\t', '"'] :=
  ⟨(put_quoted_nocolor_control ostream.fresh [Char.ofNat 0x01, '\t'] rfl).1, by decide⟩

theorem flatMap_escaped_of_plain (text : List Char)
    (h : ∀ b ∈ text, 0x20 ≤ b.toNat ∨ b = '\t' ∨ b = '\r' ∨ b = '\n') :
    text.flatMap escaped = text := by
  induction text with
  | nil => rfl
  | cons b rest ih =>
    have hb : escaped b = [b] := by
      unfold escaped
      rw [if_neg]
      rintro ⟨h1, h2, h3, h4⟩
      rcases h b (List.mem_cons_self b rest) with h0 | h0 | h0 | h0
      · omega
      · exact h2 (by rw [h0]; rfl)
      · exact h4 (by rw [h0]; rfl)
      · exact h3 (by rw [h0]; rfl)
    rw [List.flatMap_cons, hb, ih (fun c hc => h c (List.mem_cons_of_mem b hc))]
    rfl

/-- C18.  With no pending field width, for every text that holds only bytes at
or above 0x20 and the bytes tab, carriage return and line feed, the output of
the insertion of a `quoted_nocolor` is the text between two double quotes, with
no substitution. -/
theorem put_quoted_nocolor_plain (os : ostream) (text : List Char) (hw : os.width = 0)
    (h : ∀ b ∈ text, 0x20 ≤ b.toNat ∨ b = '\t' ∨ b = '\r' ∨ b = '\n') :
    (put_quoted_nocolor os text).buf = os.buf ++ (['"'] ++ text ++ ['"']) := by
  rw [(emits_put_quoted_nocolor os text hw).1, quoted, flatMap_escaped_of_plain text h]
  rfl

/-- C18 (witness): the text `a`, tab, `b`. -/
theorem put_quoted_nocolor_plain_witness :
    (put_quoted_nocolor ostream.fresh ['a', '\t', 'b']).buf
      = ostream.fresh.buf ++ (['"'] ++ ['a', '\t', 'b'] ++ ['"']) :=
  put_quoted_nocolor_plain ostream.fresh ['a', '\t', 'b'] rfl (by decide)

theorem put_quoted_char_basefield (os : ostream) (i : Char) :
    (put_quoted_char os i).basefield = os.basefield := by
  unfold put_quoted_char
  dsimp only
  split_ifs <;> rfl

theorem foldl_put_quoted_char_basefield (str : List Char) (os : ostream) :
    (str.foldl put_quoted_char os).basefield = os.basefield := by
  induction str generalizing os with
  | nil => rfl
  | cons i rest ih => rw [List.foldl_cons, ih, put_quoted_char_basefield]

/-- C20.  For every text and every state of the stream, the insertion of a
`quoted_nocolor` leaves the number base of the stream as it was, also when it
wrote control bytes in hexadecimal; and an `int` inserted right after it is
written in that base, as it would be had no quoted text been written. -/
theorem put_quoted_nocolor_basefield (os : ostream) (text : List Char) (v : Int) :
    (put_quoted_nocolor os text).basefield = os.basefield
    ∧ ((put_quoted_nocolor os text).put_int v).buf
      = (put_quoted_nocolor os text).buf ++ int_digits os.basefield v := by
  have hb : (put_quoted_nocolor os text).basefield = os.basefield := by
    unfold put_quoted_nocolor
    have h := foldl_put_quoted_char_basefield text (os.put_char '"')
    simpa [ostream.put_char, ostream.write] using h
  have hw : (put_quoted_nocolor os text).width = 0 := rfl
  refine ⟨hb, ?_⟩
  rw [(emits_put_int (put_quoted_nocolor os text) v hw).1, hb]

/-- C20 (witness): on a stream in octal, the base is octal again after a control
byte was written in hexadecimal, and an `int` written next is in octal. -/
theorem put_quoted_nocolor_basefield_witness :
    (put_quoted_nocolor ⟨[], fmtbase.oct, ' ', 0⟩ [Char.ofNat 0x1F]).basefield = fmtbase.oct
    ∧ ((put_quoted_nocolor ⟨[], fmtbase.oct, ' ', 0⟩ [Char.ofNat 0x1F]).put_int 8).buf
      = (put_quoted_nocolor ⟨[], fmtbase.oct, ' ', 0⟩ [Char.ofNat 0x1F]).buf
        ++ int_digits fmtbase.oct 8 :=
  put_quoted_nocolor_basefield ⟨[], fmtbase.oct, ' ', 0⟩ [Char.ofNat 0x1F] 8

/-! ## The banner -/

/-- C14.  On a stream in decimal with no pending field width, the banner
written by `write_version` is exactly `;InnoSetupVersion=`, then `a`, `.`, `b`,
`.`, `c` in decimal, then ` (Unicode)` if and only if the flag is set, then one
line feed; for 6.0.0 on a new stream it is `;InnoSetupVersion=6.0.0 (Unicode)`
with the flag and `;InnoSetupVersion=6.0.0` without it. -/
theorem write_version_buf (ofs : ostream) (version : version) (hw : ofs.width = 0)
    (hb : ofs.basefield = fmtbase.dec) :
    (write_version ofs version).buf
      = ofs.buf ++ ";InnoSetupVersion=".toList
        ++ (Nat.repr version.a).toList ++ ".".toList
        ++ (Nat.repr version.b).toList ++ ".".toList
        ++ (Nat.repr version.c).toList
        ++ (if version.unicode then " (Unicode)".toList else [])
        ++ "\n".toList
    ∧ (write_version ostream.fresh ⟨6, 0, 0, true⟩).buf
      = ";InnoSetupVersion=6.0.0 (Unicode)\n".toList
    ∧ (write_version ostream.fresh ⟨6, 0, 0, false⟩).buf
      = ";InnoSetupVersion=6.0.0\n".toList := by
  refine ⟨?_, by decide, by decide⟩
  rw [(emits_write_version ofs version hw).1, hb]
  have hr : ∀ n : Nat, (Nat.repr n).toList = Nat.toDigits 10 n := fun _ => rfl
  simp only [version_text, hr, fmtbase.radix, List.append_assoc]

/-- C14 (witness): the banner of version 5.12.3 of the wide-character variant,
on a new stream. -/
theorem write_version_buf_witness :
    (write_version ostream.fresh ⟨5, 12, 3, true⟩).buf
      = ";InnoSetupVersion=5.12.3 (Unicode)\n".toList :=
  (write_version_buf ostream.fresh ⟨5, 12, 3, true⟩ rfl rfl).1

/-! ## The order of the settings -/

theorem setup_keyvalues_eq_map (h : header) :
    setup_keyvalues h = setup_fields.map (fun f => (⟨f.1, f.2 h⟩ : keyvalue)) := rfl

theorem flatMap_keyvalue_text_filter (h : header)
    (l : List (List Char × (header → List Char))) :
    (l.map (fun f => (⟨f.1, f.2 h⟩ : keyvalue))).flatMap
        (fun kv => keyvalue_text kv.key kv.value)
      = (l.filter (fun f => decide (f.2 h ≠ []))).flatMap
        (fun f => f.1 ++ "=".toList ++ f.2 h ++ "\n".toList) := by
  induction l with
  | nil => rfl
  | cons f rest ih =>
    rw [List.map_cons, List.flatMap_cons, ih, List.filter_cons]
    by_cases hv : f.2 h = []
    · simp [keyvalue_text, hv]
    · simp [keyvalue_text, hv, List.flatMap_cons]

/-- C15.  With no pending field width, the lines of the settings section are
those of the one static list `setup_fields`, filtered by which members are not
empty and kept in the order of the list; so for any two settings models the
sequence of keys written for the first, restricted to the members populated in
the second too, is the sequence written for the second restricted to the
members populated in the first. -/
theorem write_setup_key_order (ofs : ostream) (h1 h2 : header) (hw : ofs.width = 0) :
    (write_setup ofs h1).buf
      = ofs.buf ++ "\n[Setup]\n".toList
        ++ (setup_emitted h1).flatMap (fun f => f.1 ++ "=".toList ++ f.2 h1 ++ "\n".toList)
    ∧ ((setup_emitted h1).filter (fun f => decide (f.2 h2 ≠ []))).map Prod.fst
      = ((setup_emitted h2).filter (fun f => decide (f.2 h1 ≠ []))).map Prod.fst := by
  constructor
  · rw [(emits_write_setup ofs h1 hw).1, setup_keyvalues_eq_map,
      flatMap_keyvalue_text_filter, List.append_assoc]
    rfl
  · unfold setup_emitted
    rw [List.filter_filter, List.filter_filter]
    congr 2
    funext f
    exact Bool.and_comm _ _

/-- C15 (witness): settings with a name and a version against settings with a
version and a publisher; the keys written for both are `AppVersion` alone. -/
theorem write_setup_key_order_witness :
    ((setup_emitted { empty_header sample_range with
          app_name := "Foo".toList, app_version := "1".toList }).filter
        (fun f => decide (f.2 { empty_header sample_range with
          app_version := "2".toList, app_publisher := "P".toList } ≠ []))).map Prod.fst
      = ((setup_emitted { empty_header sample_range with
          app_version := "2".toList, app_publisher := "P".toList }).filter
        (fun f => decide (f.2 { empty_header sample_range with
          app_name := "Foo".toList, app_version := "1".toList } ≠ []))).map Prod.fst :=
  (write_setup_key_order ostream.fresh
    { empty_header sample_range with app_name := "Foo".toList, app_version := "1".toList }
    { empty_header sample_range with app_version := "2".toList, app_publisher := "P".toList }
    rfl).2

/-! ## The sinks of the registry section -/

theorem fill_kept_refl (os : ostream) : fill_kept os os := Or.inl rfl

theorem fill_kept_trans {os os1 os2 : ostream} (h1 : fill_kept os os1)
    (h2 : fill_kept os1 os2) : fill_kept os os2 := by
  unfold fill_kept at *
  rcases h2 with h | h
  · rw [h]
    exact h1
  · exact Or.inr h

theorem fill_kept_write (os : ostream) (s : List Char) : fill_kept os (os.write s) :=
  Or.inl rfl

theorem fill_kept_ite (c : Prop) [Decidable c] {os os1 : ostream} (h : fill_kept os os1) :
    fill_kept os (if c then os1 else os) := by
  by_cases hc : c
  · simpa [hc] using h
  · simpa [hc] using fill_kept_refl os

theorem fill_kept_put_quoted_char (os : ostream) (i : Char) :
    fill_kept os (put_quoted_char os i) := by
  unfold put_quoted_char
  dsimp only
  split_ifs
  · exact Or.inr rfl
  · exact Or.inl rfl

theorem fill_kept_foldl_put_quoted_char (str : List Char) (os : ostream) :
    fill_kept os (str.foldl put_quoted_char os) := by
  induction str generalizing os with
  | nil => exact fill_kept_refl os
  | cons i rest ih =>
    exact fill_kept_trans (fill_kept_put_quoted_char os i) (ih _)

theorem fill_kept_put_quoted_nocolor (os : ostream) (str : List Char) :
    fill_kept os (put_quoted_nocolor os str) := by
  unfold put_quoted_nocolor
  exact fill_kept_trans (fill_kept_trans (fill_kept_write os _)
    (fill_kept_foldl_put_quoted_char str _)) (fill_kept_write _ _)

theorem fill_kept_put_property {T : Type} (put : ostream → T → ostream) (os : ostream)
    (prop : property T) (hput : ∀ os1 : ostream, fill_kept os1 (put os1 prop.value)) :
    fill_kept os (put_property put os prop) := by
  unfold put_property
  dsimp only
  refine fill_kept_trans ?_ (hput _)
  by_cases hf : prop.first = true <;> simp [hf, fill_kept, ostream.write]

theorem fill_kept_put_property_string (os : ostream) (prop : property (List Char)) :
    fill_kept os (put_property_string os prop) := by
  by_cases hv : prop.value.isEmpty = true <;> by_cases hf : prop.first = true <;>
    simp [put_property_string, hv, hf, fill_kept, ostream.write]

theorem fill_kept_write_item (X : externals) (ofs : ostream) (item : item)
    (header : header) : fill_kept ofs (write_item X ofs item header) := by
  have h1 := fill_kept_put_property_string ofs ⟨"Languages".toList, item.languages, false⟩
  have h2 := fun os : ostream => fill_kept_ite (item.winver.begin ≠ header.winver.begin)
    (fill_kept_put_property (put_windows_version_data X) os
      ⟨"MinVersion".toList, item.winver.begin.win_version, false⟩
      (fun os1 => fill_kept_write os1 _))
  have h3 := fun os : ostream => fill_kept_ite (item.winver.end_ ≠ header.winver.end_)
    (fill_kept_put_property (put_windows_version_data X) os
      ⟨"OnlyBelowVersion".toList, item.winver.end_.win_version, false⟩
      (fun os1 => fill_kept_write os1 _))
  have h4 := fun os : ostream =>
    fill_kept_put_property_string os ⟨"Components".toList, item.components, false⟩
  have h5 := fun os : ostream =>
    fill_kept_put_property_string os ⟨"Tasks".toList, item.tasks, false⟩
  exact fill_kept_trans (fill_kept_trans (fill_kept_trans (fill_kept_trans h1 (h2 _)) (h3 _))
    (h4 _)) (h5 _)

theorem fill_kept_write_registry_entry (X : externals) (ofs : ostream)
    (entry : registry_entry) (header : header) :
    fill_kept ofs (write_registry_entry X ofs entry header) := by
  have h1 := fill_kept_put_property_string ofs
    ⟨"Root".toList, stringify (put_hive_name X) entry.hive, true⟩
  have h2 := fun os : ostream => fill_kept_put_property put_quoted_nocolor os
    ⟨"Subkey".toList, entry.key, false⟩ (fun os1 => fill_kept_put_quoted_nocolor os1 _)
  have h3 := fun os : ostream => fill_kept_ite (entry.type ≠ X.None)
    (fill_kept_put_property_string os
      ⟨"ValueType".toList, stringify (put_value_type X) entry.type, false⟩)
  have h4 := fun os : ostream => fill_kept_ite (¬ entry.name.isEmpty)
    (fill_kept_put_property put_quoted_nocolor os
      ⟨"ValueName".toList, entry.name, false⟩ (fun os1 => fill_kept_put_quoted_nocolor os1 _))
  have h5 := fun os : ostream => fill_kept_ite (¬ entry.value.isEmpty)
    (fill_kept_put_property put_quoted_nocolor os
      ⟨"ValueData".toList, entry.value, false⟩ (fun os1 => fill_kept_put_quoted_nocolor os1 _))
  have h6 := fun os : ostream => fill_kept_ite (entry.permission ≠ -1)
    (fill_kept_put_property ostream.put_int os
      ⟨"Permissions".toList, entry.permission, false⟩ (fun os1 => fill_kept_write os1 _))
  have h7 := fun os : ostream => fill_kept_write_item X os entry.toitem header
  have h8 := fun os : ostream => fill_kept_ite (entry.options ≠ 0)
    (fill_kept_put_property (put_flags X) os ⟨"Flags".toList, entry.options, false⟩
      (fun os1 => fill_kept_write os1 _))
  have a2 := fill_kept_trans h1 (h2 _)
  have a3 := fill_kept_trans a2 (h3 _)
  have a4 := fill_kept_trans a3 (h4 _)
  have a5 := fill_kept_trans a4 (h5 _)
  have a6 := fill_kept_trans a5 (h6 _)
  have a7 := fill_kept_trans a6 (h7 _)
  have a8 := fill_kept_trans a7 (h8 _)
  exact fill_kept_trans a8 (fill_kept_write _ "\n".toList)

theorem fill_kept_foldl_write_registry_entry (X : externals) (header : header)
    (entries : List registry_entry) (ofs : ostream) :
    fill_kept ofs
      (entries.foldl (fun ofs entry => write_registry_entry X ofs entry header) ofs) := by
  induction entries generalizing ofs with
  | nil => exact fill_kept_refl ofs
  | cons e rest ih =>
    exact fill_kept_trans (fill_kept_write_registry_entry X ofs e header) (ih _)

theorem fill_kept_write_registry (X : externals) (ofs cout : ostream) (info : info) :
    fill_kept ofs (write_registry X ofs cout info).ofs := by
  unfold write_registry
  exact fill_kept_trans (fill_kept_write ofs _)
    (fill_kept_foldl_write_registry_entry X info.header _ _)

/-- C16 (counterexample).  Called with two entries, `write_registry` writes
`2` and a line feed to the standard output. -/
theorem write_registry_writes_cout :
    (write_registry sample_externals ostream.fresh ostream.fresh two_entries_info).cout.buf
      = "2\n".toList := by
  decide

/-- C16 (amended).  Called on streams with no pending field width,
`write_registry` has these effects on the two streams it writes to.  To the
standard output it writes the number of registry entries, in the number base of
that stream, followed by the line feed of `std::endl`, and leaves the format
state of that stream as it was; so the standard output receives bytes during
every call.  To the sink it appends the text of the section, keeps its number
base and its field width, and leaves its fill character either as it was or set
to `'0'`. -/
theorem write_registry_effects (X : externals) (ofs cout : ostream) (info : info)
    (hw : ofs.width = 0) (hc : cout.width = 0) :
    (write_registry X ofs cout info).cout
      = ⟨cout.buf ++ Nat.toDigits cout.basefield.radix info.registry_entries.length ++ ['\n'],
          cout.basefield, cout.fill, cout.width⟩
    ∧ (write_registry X ofs cout info).cout.buf ≠ cout.buf
    ∧ (write_registry X ofs cout info).ofs.buf = ofs.buf ++ registry_text X ofs.basefield info
    ∧ (write_registry X ofs cout info).ofs.basefield = ofs.basefield
    ∧ (write_registry X ofs cout info).ofs.width = ofs.width
    ∧ ((write_registry X ofs cout info).ofs.fill = ofs.fill
        ∨ (write_registry X ofs cout info).ofs.fill = '0') := by
  have e : (write_registry X ofs cout info).cout
      = ⟨cout.buf ++ Nat.toDigits cout.basefield.radix info.registry_entries.length
          ++ ['\n'], cout.basefield, cout.fill, cout.width⟩ := by
    simp [write_registry, ostream.endl, ostream.put_unsigned, ostream.write, ostream.pad, hc]
  obtain ⟨hbuf, hbase, hwidth⟩ := emits_write_registry X ofs cout info hw
  refine ⟨e, fun h => ?_, hbuf, hbase, by rw [hwidth, hw],
    fill_kept_write_registry X ofs cout info⟩
  have hl := congrArg List.length h
  rw [e] at hl
  simp at hl

/-- C16 (witness): a call with one entry whose subkey path is a control byte,
on a new sink and a standard output that held `x`: the standard output holds
`x1` and a line feed afterwards, and the fill character of the sink is `'0'`. -/
theorem write_registry_effects_witness :
    (write_registry sample_externals ostream.fresh ⟨"x".toList, fmtbase.dec, ' ', 0⟩
        ⟨⟨6, 0, 0, false⟩, empty_header sample_range, [control_key_entry]⟩).cout
      = ⟨"x1\n".toList, fmtbase.dec, ' ', 0⟩
    ∧ (write_registry sample_externals ostream.fresh ⟨"x".toList, fmtbase.dec, ' ', 0⟩
        ⟨⟨6, 0, 0, false⟩, empty_header sample_range, [control_key_entry]⟩).ofs.fill = '0'
    ∧ (write_registry sample_externals ostream.fresh ⟨"x".toList, fmtbase.dec, ' ', 0⟩
        ⟨⟨6, 0, 0, false⟩, empty_header sample_range, [control_key_entry]⟩).ofs.buf
      = "\n[Registry]\nRoot: HKCU; Subkey: \"<01>\"\n".toList :=
  ⟨(write_registry_effects sample_externals ostream.fresh ⟨"x".toList, fmtbase.dec, ' ', 0⟩
    ⟨⟨6, 0, 0, false⟩, empty_header sample_range, [control_key_entry]⟩ rfl rfl).1,
    by decide, by decide⟩

/-! ## The body of the registry section -/

theorem registry_body_eq_flatMap (X : externals) (ofs cout : ostream) (version : version)
    (header : header) (entries : List registry_entry) (hw : ofs.width = 0) :
    registry_body X ofs cout version header entries
      = entries.flatMap (fun e => registry_entry_text X ofs.basefield e header) := by
  unfold registry_body
  rw [(emits_write_registry X ofs cout _ hw).1, registry_text, List.drop_append,
    List.drop_left]

/-- C17.  With no pending field width, the text `write_registry` appends after
the `[Registry]` header for the entries `xs ++ ys` is the text it appends after
the header for `xs` followed by the one for `ys`; the body is the concatenation,
in the order of the list, of the text of each entry, and an entry that occurs
twice is written twice. -/
theorem registry_body_append (X : externals) (ofs cout : ostream) (version : version)
    (header : header) (xs ys : List registry_entry) (hw : ofs.width = 0) :
    registry_body X ofs cout version header (xs ++ ys)
      = registry_body X ofs cout version header xs
        ++ registry_body X ofs cout version header ys
    ∧ (write_registry X ofs cout ⟨version, header, xs⟩).ofs.buf
      = ofs.buf ++ "\n[Registry]\n".toList ++ registry_body X ofs cout version header xs
    ∧ registry_body X ofs cout version header xs
      = xs.flatMap (fun e => registry_entry_text X ofs.basefield e header)
    ∧ ∀ e, registry_body X ofs cout version header [e, e]
      = registry_entry_text X ofs.basefield e header
        ++ registry_entry_text X ofs.basefield e header := by
  refine ⟨?_, ?_, registry_body_eq_flatMap X ofs cout version header xs hw, fun e => ?_⟩
  · rw [registry_body_eq_flatMap _ _ _ _ _ _ hw, registry_body_eq_flatMap _ _ _ _ _ _ hw,
      registry_body_eq_flatMap _ _ _ _ _ _ hw, List.flatMap_append]
  · rw [registry_body_eq_flatMap _ _ _ _ _ _ hw, (emits_write_registry X ofs cout _ hw).1,
      registry_text, List.append_assoc]
  · rw [registry_body_eq_flatMap _ _ _ _ _ _ hw]
    simp [List.flatMap_cons]

/-- C17 (witness): the body for the full sample entry followed by a key-only
entry. -/
theorem registry_body_append_witness :
    registry_body sample_externals ostream.fresh ostream.fresh ⟨6, 0, 0, false⟩
        (empty_header sample_range)
        ([full_entry] ++ [key_only_entry 1 "a".toList sample_externals.None sample_range])
      = registry_body sample_externals ostream.fresh ostream.fresh ⟨6, 0, 0, false⟩
          (empty_header sample_range) [full_entry]
        ++ registry_body sample_externals ostream.fresh ostream.fresh ⟨6, 0, 0, false⟩
          (empty_header sample_range)
          [key_only_entry 1 "a".toList sample_externals.None sample_range] :=
  (registry_body_append sample_externals ostream.fresh ostream.fresh ⟨6, 0, 0, false⟩
    (empty_header sample_range) [full_entry]
    [key_only_entry 1 "a".toList sample_externals.None sample_range] rfl).1

/-! ## An entry whose hive has no name -/

theorem registry_written_of_unnamed (X : externals) (b : fmtbase) (entry : registry_entry)
    (header : header) (hr : X.hive_name entry.hive = []) :
    registry_written X b entry header
      = ("Subkey".toList, quoted entry.key) :: (registry_written X b entry header).tail := by
  simp only [registry_written, hr, if_true, List.nil_append, List.append_assoc,
    List.singleton_append, List.cons_append, List.tail_cons]

theorem root_mem_registry_written (X : externals) (b : fmtbase) (entry : registry_entry)
    (header : header) (c : List Char × List Char)
    (hc : c ∈ registry_written X b entry header) (hk : c.1 = "Root".toList) :
    X.hive_name entry.hive ≠ [] := by
  simp only [registry_written, item_clauses, List.mem_append, mem_ite_singleton,
    mem_ite_nil_singleton, List.mem_singleton] at hc
  rcases hc with ((((((((h | h) | h) | h) | h) | h) | ((((h | h) | h) | h) | h))) | h)
  all_goals
    obtain ⟨hp, rfl⟩ := h
    first
      | exact hp
      | simp at hk

/-- C19.  For a registry entry whose hive renders to the empty string, written
to a stream with no pending field width, the `Root` clause is left out and the
text of the entry begins with the separator: it starts with `; Subkey: ` and the
quoted subkey path. -/
theorem write_registry_entry_unnamed_hive (X : externals) (ofs : ostream)
    (entry : registry_entry) (header : header) (hw : ofs.width = 0)
    (hr : X.hive_name entry.hive = []) :
    (write_registry_entry X ofs entry header).buf
      = ofs.buf ++ "; Subkey: ".toList ++ quoted entry.key
        ++ written_text (registry_written X ofs.basefield entry header).tail
        ++ "\n".toList
    ∧ "Root".toList ∉ (registry_written X ofs.basefield entry header).map Prod.fst := by
  constructor
  · have e := registry_written_of_unnamed X ofs.basefield entry header hr
    have e2 : written_text (registry_written X ofs.basefield entry header)
        = "; Subkey: ".toList ++ quoted entry.key
          ++ written_text (registry_written X ofs.basefield entry header).tail := by
      conv_lhs => rw [e]
      rw [written_text_cons]
      simp [property_text, clause]
    rw [(emits_write_registry_entry X ofs entry header hw).1, registry_entry_text, e2]
    simp only [List.append_assoc]
  · intro hmem
    obtain ⟨c, hc, hk⟩ := List.mem_map.mp hmem
    exact root_mem_registry_written X ofs.basefield entry header c hc hk hr

/-- C19 (witness): the line of a key-only entry under a hive that has no
name. -/
theorem write_registry_entry_unnamed_hive_witness :
    sample_externals.hive_name unnamed_hive_entry.hive = []
    ∧ (write_registry_entry sample_externals ostream.fresh unnamed_hive_entry
        (empty_header sample_range)).buf
      = ostream.fresh.buf ++ "; Subkey: ".toList ++ quoted unnamed_hive_entry.key
        ++ written_text (registry_written sample_externals ostream.fresh.basefield
          unnamed_hive_entry (empty_header sample_range)).tail
        ++ "\n".toList
    ∧ (write_registry_entry sample_externals ostream.fresh unnamed_hive_entry
        (empty_header sample_range)).buf = "; Subkey: \"Software\\Foo\"\n".toList :=
  ⟨by decide,
    (write_registry_entry_unnamed_hive sample_externals ostream.fresh unnamed_hive_entry
      (empty_header sample_range) rfl (by decide)).1, by decide⟩

end setup
